import Mathlib

/-!
# country-mapper: lookup client and loader

A shallow embedding of `country_mapper.go`.

* Go strings are modelled by `String` (Go strings holding valid UTF-8), compared
  with `=` as Go compares them with `==`.
* A `[]*CountryInfo` catalog is the list of the records pointed to; `Load` never
  stores a nil pointer, and a nil result of a point lookup is `none`.
* `strings.ToLower` and `strings.Split` belong to the Go standard library; they
  are modelled here on the characters of a string.  The case tables of package
  `unicode` for runes above U+007F are a parameter `tab`.
* `Load` returns `(client, error)` or panics; the three outcomes are
  `Except.ok`, `Except.error (Failure.error _)` and
  `Except.error (Failure.indexOutOfRange _ _)`, paired with the list of
  input events performed on the way.
* The embedded `files/country_info.csv` is not among the sources; what the spec
  says of it is the predicate `BundledDataset`.
* To state that the lookups write nothing, each is given once more as a function
  on a `Memory` (the pointers of `Data` and the struct at each address).
-/

set_option autoImplicit false

namespace CountryMapper

/-! ## Standard-library functions used by the source -/

/-- Rune mapping `unicode.ToLower`: below `utf8.RuneSelf` only `A`..`Z` change (by
`'a' - 'A' = 32`); above it the case tables `tab` of package `unicode` decide. -/
def lowerRune (tab : Char → Char) (r : Char) : Char :=
  if r.toNat ≤ 127 then
    if 65 ≤ r.toNat ∧ r.toNat ≤ 90 then Char.ofNat (r.toNat + 32) else r
  else tab r

/-- Go `strings.ToLower`: every rune of `s` mapped to its lower case. -/
def ToLower (tab : Char → Char) (s : String) : String :=
  ⟨s.data.map (lowerRune tab)⟩

/-- Scan of `strings.Split` for a one-character separator: `cur` holds the
characters of the token being read, last one first. -/
def splitLoop (sep : Char) : List Char → List Char → List String
  | cur, [] => [⟨cur.reverse⟩]
  | cur, c :: cs =>
    if c = sep then ⟨cur.reverse⟩ :: splitLoop sep [] cs
    else splitLoop sep (c :: cur) cs

/-- Go `strings.Split(s, sep)` for a one-character separator (every call of the
source passes `","`): the substrings of `s` between the separators. -/
def Split (s : String) (sep : Char) : List String :=
  splitLoop sep [] s.data

/-! ## Data model -/

/-- Go `type CountryInfo struct`. -/
structure CountryInfo where
  Name : String
  AlternateNames : List String
  Alpha2 : String
  Alpha3 : String
  Capital : String
  Currency : List String
  CallingCode : List String
  Region : String
  Subregion : String
  deriving DecidableEq, Repr

/-- Go `type CountryInfoClient struct`. -/
structure CountryInfoClient where
  Data : List CountryInfo
  deriving DecidableEq, Repr

/-- Go `stringInSlice`: the loop returns `true` at the first element equal to `a`. -/
def stringInSlice (a : String) : List String → Bool
  | [] => false
  | b :: list => if b = a then true else stringInSlice a list

/-- Go `(*CountryInfo).AlternateNamesLower`: `updated` grows by one lowered
element per iteration. -/
def CountryInfo.AlternateNamesLower (tab : Char → Char) (c : CountryInfo) : List String :=
  c.AlternateNames.foldl (fun updated alternateName => updated ++ [ToLower tab alternateName]) []

/-- Go `(*CountryInfo).CurrencyLower`. -/
def CountryInfo.CurrencyLower (tab : Char → Char) (c : CountryInfo) : List String :=
  c.Currency.foldl (fun updated currency => updated ++ [ToLower tab currency]) []

/-- Go `(*CountryInfo).CallingCodeLower`. -/
def CountryInfo.CallingCodeLower (tab : Char → Char) (c : CountryInfo) : List String :=
  c.CallingCode.foldl (fun updated callingCode => updated ++ [ToLower tab callingCode]) []

/-! ## Lookup client -/

/-- Loop of `MapByName` over the remaining rows: the first row whose name or
alternate names hold `name` is returned at once. -/
def MapByName.loop (tab : Char → Char) (name : String) : List CountryInfo → Option CountryInfo
  | [] => none
  | row :: rest =>
    if ToLower tab row.Name = ToLower tab name then some row
    else if stringInSlice (ToLower tab name) (row.AlternateNamesLower tab) then some row
    else MapByName.loop tab name rest

/-- Go `(*CountryInfoClient).MapByName`. -/
def CountryInfoClient.MapByName (tab : Char → Char) (c : CountryInfoClient) (name : String) :
    Option CountryInfo :=
  MapByName.loop tab name c.Data

/-- Loop of `MapByAlpha2`. -/
def MapByAlpha2.loop (tab : Char → Char) (alpha2 : String) : List CountryInfo → Option CountryInfo
  | [] => none
  | row :: rest =>
    if ToLower tab row.Alpha2 = ToLower tab alpha2 then some row
    else MapByAlpha2.loop tab alpha2 rest

/-- Go `(*CountryInfoClient).MapByAlpha2`. -/
def CountryInfoClient.MapByAlpha2 (tab : Char → Char) (c : CountryInfoClient) (alpha2 : String) :
    Option CountryInfo :=
  MapByAlpha2.loop tab alpha2 c.Data

/-- Loop of `MapByAlpha3`. -/
def MapByAlpha3.loop (tab : Char → Char) (alpha3 : String) : List CountryInfo → Option CountryInfo
  | [] => none
  | row :: rest =>
    if ToLower tab row.Alpha3 = ToLower tab alpha3 then some row
    else MapByAlpha3.loop tab alpha3 rest

/-- Go `(*CountryInfoClient).MapByAlpha3`. -/
def CountryInfoClient.MapByAlpha3 (tab : Char → Char) (c : CountryInfoClient) (alpha3 : String) :
    Option CountryInfo :=
  MapByAlpha3.loop tab alpha3 c.Data

/-- Go `(*CountryInfoClient).MapByCurrency`: `rowList` starts empty and a
matching row is appended to it. -/
def CountryInfoClient.MapByCurrency (tab : Char → Char) (c : CountryInfoClient)
    (currency : String) : List CountryInfo :=
  c.Data.foldl
    (fun rowList row =>
      if stringInSlice (ToLower tab currency) (row.CurrencyLower tab) then rowList ++ [row]
      else rowList)
    []

/-- Go `(*CountryInfoClient).MapByCallingCode`. -/
def CountryInfoClient.MapByCallingCode (tab : Char → Char) (c : CountryInfoClient)
    (callingCode : String) : List CountryInfo :=
  c.Data.foldl
    (fun rowList row =>
      if stringInSlice (ToLower tab callingCode) (row.CallingCodeLower tab) then rowList ++ [row]
      else rowList)
    []

/-- Go `(*CountryInfoClient).MapByRegion`. -/
def CountryInfoClient.MapByRegion (tab : Char → Char) (c : CountryInfoClient)
    (region : String) : List CountryInfo :=
  c.Data.foldl
    (fun rowList row =>
      if ToLower tab row.Region = ToLower tab region then rowList ++ [row] else rowList)
    []

/-- Go `(*CountryInfoClient).MapBySubregion`. -/
def CountryInfoClient.MapBySubregion (tab : Char → Char) (c : CountryInfoClient)
    (subregion : String) : List CountryInfo :=
  c.Data.foldl
    (fun rowList row =>
      if ToLower tab row.Subregion = ToLower tab subregion then rowList ++ [row] else rowList)
    []

/-! ## Loader -/

/-- How a call can fail: an `error` value returned next to a nil client, or the
run-time panic of an index expression. -/
inductive Failure where
  | error (msg : String)
  | indexOutOfRange (index length : Nat)
  deriving DecidableEq, Repr

/-- Input performed by `Load`. -/
inductive InputEvent where
  | httpGet (url : String)
  | readDefault
  deriving DecidableEq, Repr

/-- What lies outside the program: the answer of `http.Get` (the response body
or the transport error), `csv.Reader.ReadAll` with `Comma = ';'`, and the bytes
of the embedded `files/country_info.csv`. -/
structure Env where
  httpGet : String → Except String String
  csvReadAll : String → Except String (List (List String))
  defaultCountryInfo : String

/-- Go index expression `s[i]`, which panics when `i` is out of range. -/
def index {α : Type} (s : List α) (i : Nat) : Except Failure α :=
  match s[i]? with
  | some x => .ok x
  | none => .error (.indexOutOfRange i s.length)

/-- Go `readCSVFromURL`. -/
def readCSVFromURL (env : Env) (fileURL : String) : Except String (List (List String)) :=
  match env.httpGet fileURL with
  | .error err => .error err
  | .ok body =>
    match env.csvReadAll body with
    | .error err => .error err
    | .ok data => .ok data

/-- Go `readCSVFromBytes`. -/
def readCSVFromBytes (env : Env) (b : String) : Except String (List (List String)) :=
  match env.csvReadAll b with
  | .error err => .error err
  | .ok data => .ok data

/-- Body of the loop of `Load` for one data row, in the order Go evaluates it. -/
def Load.record (row : List String) : Except Failure CountryInfo := do
  let f0 ← index row 0
  let name ← index ((Split f0 ',').take 1) 0
  let f0 ← index row 0
  let alternateNames := (Split f0 ',').drop 1
  let f8 ← index row 8
  let alternateNames := alternateNames ++ Split f8 ','
  let alpha2 ← index row 2
  let alpha3 ← index row 4
  let capital ← index row 7
  let f5 ← index row 5
  let f6 ← index row 6
  let region ← index row 10
  let subregion ← index row 11
  pure {
    Name := name
    AlternateNames := alternateNames
    Alpha2 := alpha2
    Alpha3 := alpha3
    Capital := capital
    Currency := Split f5 ','
    CallingCode := Split f6 ','
    Region := region
    Subregion := subregion }

/-- Loop `for idx, row := range data` of `Load`: row 0 is skipped, every other
row appends its record to `recordList`. -/
def Load.loop : Nat → List (List String) → List CountryInfo → Except Failure (List CountryInfo)
  | _, [], recordList => .ok recordList
  | idx, row :: rest, recordList =>
    if idx = 0 then Load.loop (idx + 1) rest recordList
    else
      match Load.record row with
      | .error f => .error f
      | .ok record => Load.loop (idx + 1) rest (recordList ++ [record])

/-- Go `Load`, with the input events it performed. -/
def Load (env : Env) (specifiedURL : List String) :
    Except Failure CountryInfoClient × List InputEvent :=
  if specifiedURL.length > 1 then
    (.error (.error "only one url can be passed in"), [])
  else
    let read : Except String (List (List String)) × List InputEvent :=
      match specifiedURL with
      | url :: _ => (readCSVFromURL env url, [.httpGet url])
      | [] => (readCSVFromBytes env env.defaultCountryInfo, [.readDefault])
    match read.1 with
    | .error err => (.error (.error err), read.2)
    | .ok data =>
      match Load.loop 0 data [] with
      | .error f => (.error f, read.2)
      | .ok recordList => (.ok { Data := recordList }, read.2)

/-! ## Vocabulary of the statements -/

/-- Two strings are equal ignoring case when their lower-cased forms are equal. -/
def EqIgnoreCase (tab : Char → Char) (a b : String) : Prop :=
  ToLower tab a = ToLower tab b

instance (tab : Char → Char) (a b : String) : Decidable (EqIgnoreCase tab a b) :=
  inferInstanceAs (Decidable (ToLower tab a = ToLower tab b))

/-- Record `r` matches the name `q`: its `Name` equals `q` ignoring case, or some
element of its `AlternateNames` does. -/
def NameMatches (tab : Char → Char) (q : String) (r : CountryInfo) : Prop :=
  EqIgnoreCase tab r.Name q ∨ ∃ a ∈ r.AlternateNames, EqIgnoreCase tab a q

instance (tab : Char → Char) (q : String) (r : CountryInfo) : Decidable (NameMatches tab q r) :=
  inferInstanceAs (Decidable (_ ∨ _))

/-- Some element of `list` equals `q` ignoring case. -/
def ContainsIgnoreCase (tab : Char → Char) (q : String) (list : List String) : Prop :=
  ∃ a ∈ list, EqIgnoreCase tab a q

instance (tab : Char → Char) (q : String) (list : List String) :
    Decidable (ContainsIgnoreCase tab q list) :=
  inferInstanceAs (Decidable (∃ a ∈ list, EqIgnoreCase tab a q))

/-! ## Sample inputs -/

/-- A catalog of two records that share an alternate name. -/
def sampleCatalog : CountryInfoClient :=
  { Data := [
      { Name := "South Korea", AlternateNames := ["Korea", "ROK"], Alpha2 := "KR",
        Alpha3 := "KOR", Capital := "Seoul", Currency := ["KRW"], CallingCode := ["82"],
        Region := "Asia", Subregion := "Eastern Asia" },
      { Name := "North Korea", AlternateNames := ["Korea", "DPRK"], Alpha2 := "KP",
        Alpha3 := "PRK", Capital := "Pyongyang", Currency := ["KPW"], CallingCode := ["850"],
        Region := "Asia", Subregion := "Eastern Asia" }] }

/-- A catalog whose only record spells its region in capitals. -/
def capitalsCatalog : CountryInfoClient :=
  { Data := [
      { Name := "Fiji", AlternateNames := ["Republic of Fiji"], Alpha2 := "FJ", Alpha3 := "FJI",
        Capital := "Suva", Currency := ["FJD"], CallingCode := ["679"], Region := "OCEANIA",
        Subregion := "Melanesia" }] }

/-- An environment without network whose reader yields no row. -/
def offlineEnv : Env :=
  { httpGet := fun _ => .error "no route to host"
    csvReadAll := fun _ => .ok []
    defaultCountryInfo := "" }

/-- A data row of 12 fields in the layout `Load` reads. -/
def sampleRow : List String :=
  ["South Korea,Korea", "410", "KR", "KOR-410", "KOR", "KRW", "82", "Seoul",
    "Republic of Korea,ROK", "ko", "Asia", "Eastern Asia"]

/-- A table of a header and two data rows. -/
def sampleTable : List (List String) :=
  [ ["name", "numeric", "alpha2", "code", "alpha3", "currency", "callingCode", "capital",
      "altSpellings", "languages", "region", "subregion"],
    ["South Korea,Korea", "410", "KR", "KOR-410", "KOR", "KRW", "82", "Seoul",
      "Republic of Korea,ROK", "ko", "Asia", "Eastern Asia"],
    ["Singapore", "702", "SG", "SGP-702", "SGP", "SGD", "65", "Singapore",
      "Singapura,Republic of Singapore", "en", "Asia", "South-Eastern Asia"] ]

/-- An environment whose reader parses every source to `sampleTable`. -/
def sampleEnv : Env :=
  { httpGet := fun _ => .ok ""
    csvReadAll := fun _ => .ok sampleTable
    defaultCountryInfo := "" }

/-- A parsed table whose header and data row have three fields each, as
`csv.Reader.ReadAll` yields it for the text `name;alpha2;alpha3` followed by
`Singapore;SG;SGP`. -/
def shortTable : List (List String) :=
  [["name", "alpha2", "alpha3"], ["Singapore", "SG", "SGP"]]

/-- An environment whose URLs serve the three-column text of `shortTable`. -/
def shortEnv : Env :=
  { httpGet := fun _ => .ok "name;alpha2;alpha3\nSingapore;SG;SGP\n"
    csvReadAll := fun _ => .ok shortTable
    defaultCountryInfo := "" }

/-- A table whose data row leaves the currency, calling-code, capital and
alternate-spelling fields empty. -/
def emptyFieldsTable : List (List String) :=
  [ ["name", "numeric", "alpha2", "code", "alpha3", "currency", "callingCode", "capital",
      "altSpellings", "languages", "region", "subregion"],
    ["Antarctica", "010", "AQ", "ATA-010", "ATA", "", "", "", "", "", "Polar", ""] ]

/-- An environment whose reader parses every source to `emptyFieldsTable`. -/
def emptyFieldsEnv : Env :=
  { httpGet := fun _ => .ok ""
    csvReadAll := fun _ => .ok emptyFieldsTable
    defaultCountryInfo := "" }

/-- A catalog in which the alternate name of the first record is the canonical
name of the second. -/
def outrankCatalog : CountryInfoClient :=
  { Data := [
      { Name := "South Korea", AlternateNames := ["Korea", "ROK"], Alpha2 := "KR",
        Alpha3 := "KOR", Capital := "Seoul", Currency := ["KRW"], CallingCode := ["82"],
        Region := "Asia", Subregion := "Eastern Asia" },
      { Name := "Korea", AlternateNames := ["DPRK"], Alpha2 := "KP",
        Alpha3 := "PRK", Capital := "Pyongyang", Currency := ["KPW"], CallingCode := ["850"],
        Region := "Asia", Subregion := "Eastern Asia" }] }

/-! ## The bundled dataset -/

/-- Modelled from the spec: the embedded `files/country_info.csv`, which is not
among the sources. The spec describes the bundled dataset as a
semicolon-delimited text with a header row and the 12-field layout, from which
loading yields a non-empty catalog: the reader parses the embedded bytes to a
header row followed by at least one data row, and every data row has at least
12 fields. -/
def BundledDataset (env : Env) : Bool :=
  match env.csvReadAll env.defaultCountryInfo with
  | .ok (_ :: row :: rows) => (row :: rows).all (fun r => decide (12 ≤ r.length))
  | _ => false

/-! ## The variant with case-folded lists computed at load time -/

/-- Record of the variant the spec allows: the canonical fields, and next to
them the case-folded forms of the three lists, stored once at load time. -/
structure PrecomputedInfo where
  info : CountryInfo
  alternateNamesLower : List String
  currencyLower : List String
  callingCodeLower : List String
  deriving DecidableEq, Repr

/-- Load-time step of the variant: the case-folded forms of the lists of `r`. -/
def precompute (tab : Char → Char) (r : CountryInfo) : PrecomputedInfo :=
  { info := r
    alternateNamesLower := r.AlternateNames.map (ToLower tab)
    currencyLower := r.Currency.map (ToLower tab)
    callingCodeLower := r.CallingCode.map (ToLower tab) }

/-- Name lookup of the variant: first record whose name, or one of whose stored
case-folded alternate names, is the case-folded query. -/
def MapByNamePrecomputed (tab : Char → Char) (data : List PrecomputedInfo) (name : String) :
    Option CountryInfo :=
  (data.find? (fun p =>
    decide (ToLower tab p.info.Name = ToLower tab name) ||
      decide (ToLower tab name ∈ p.alternateNamesLower))).map (fun p => p.info)

/-- Currency lookup of the variant: the records whose stored case-folded
currencies hold the case-folded query. -/
def MapByCurrencyPrecomputed (tab : Char → Char) (data : List PrecomputedInfo)
    (currency : String) : List CountryInfo :=
  (data.filter (fun p => decide (ToLower tab currency ∈ p.currencyLower))).map (fun p => p.info)

/-- Calling-code lookup of the variant. -/
def MapByCallingCodePrecomputed (tab : Char → Char) (data : List PrecomputedInfo)
    (callingCode : String) : List CountryInfo :=
  (data.filter (fun p => decide (ToLower tab callingCode ∈ p.callingCodeLower))).map
    (fun p => p.info)

/-- The second record of `sampleCatalog`. -/
def northKorea : CountryInfo :=
  { Name := "North Korea", AlternateNames := ["Korea", "DPRK"], Alpha2 := "KP",
    Alpha3 := "PRK", Capital := "Pyongyang", Currency := ["KPW"], CallingCode := ["850"],
    Region := "Asia", Subregion := "Eastern Asia" }

/-! ## Lookups as transformers of the memory

The methods above read their receiver only. To state that, each method is given
a second time as a function that takes the memory reachable from the receiver,
follows the statements of the Go method and returns the memory next to the
result; records are reached through their addresses. -/

/-- Memory reachable from a client: the pointers held by the slice `Data` and the
struct stored at each address. -/
structure Memory where
  Data : List Nat
  cell : Nat → CountryInfo

/-- Catalog held in a memory: the records the pointers of `Data` address. -/
def Memory.catalog (mem : Memory) : CountryInfoClient :=
  { Data := mem.Data.map mem.cell }

/-- Go `(*CountryInfo).AlternateNamesLower` on the receiver at address `c`. -/
def AlternateNamesLower.run (tab : Char → Char) (c : Nat) (mem : Memory) :
    List String × Memory :=
  (mem.cell c).AlternateNames.foldl
    (fun st alternateName => (st.1 ++ [ToLower tab alternateName], st.2)) ([], mem)

/-- Go `(*CountryInfo).CurrencyLower` on the receiver at address `c`. -/
def CurrencyLower.run (tab : Char → Char) (c : Nat) (mem : Memory) : List String × Memory :=
  (mem.cell c).Currency.foldl
    (fun st currency => (st.1 ++ [ToLower tab currency], st.2)) ([], mem)

/-- Go `(*CountryInfo).CallingCodeLower` on the receiver at address `c`. -/
def CallingCodeLower.run (tab : Char → Char) (c : Nat) (mem : Memory) :
    List String × Memory :=
  (mem.cell c).CallingCode.foldl
    (fun st callingCode => (st.1 ++ [ToLower tab callingCode], st.2)) ([], mem)

/-- Loop of `MapByName` over the remaining pointers; the result is the pointer
returned, if any. -/
def MapByName.runLoop (tab : Char → Char) (name : String) : List Nat → Memory → Option Nat × Memory
  | [], mem => (none, mem)
  | row :: rest, mem =>
    if ToLower tab (mem.cell row).Name = ToLower tab name then (some row, mem)
    else
      let lowered := AlternateNamesLower.run tab row mem
      if stringInSlice (ToLower tab name) lowered.1 then (some row, lowered.2)
      else MapByName.runLoop tab name rest lowered.2

/-- Go `(*CountryInfoClient).MapByName` on a memory. -/
def MapByName.run (tab : Char → Char) (name : String) (mem : Memory) : Option Nat × Memory :=
  MapByName.runLoop tab name mem.Data mem

/-- Loop of `MapByAlpha2` over the remaining pointers. -/
def MapByAlpha2.runLoop (tab : Char → Char) (alpha2 : String) :
    List Nat → Memory → Option Nat × Memory
  | [], mem => (none, mem)
  | row :: rest, mem =>
    if ToLower tab (mem.cell row).Alpha2 = ToLower tab alpha2 then (some row, mem)
    else MapByAlpha2.runLoop tab alpha2 rest mem

/-- Go `(*CountryInfoClient).MapByAlpha2` on a memory. -/
def MapByAlpha2.run (tab : Char → Char) (alpha2 : String) (mem : Memory) :
    Option Nat × Memory :=
  MapByAlpha2.runLoop tab alpha2 mem.Data mem

/-- Loop of `MapByAlpha3` over the remaining pointers. -/
def MapByAlpha3.runLoop (tab : Char → Char) (alpha3 : String) :
    List Nat → Memory → Option Nat × Memory
  | [], mem => (none, mem)
  | row :: rest, mem =>
    if ToLower tab (mem.cell row).Alpha3 = ToLower tab alpha3 then (some row, mem)
    else MapByAlpha3.runLoop tab alpha3 rest mem

/-- Go `(*CountryInfoClient).MapByAlpha3` on a memory. -/
def MapByAlpha3.run (tab : Char → Char) (alpha3 : String) (mem : Memory) :
    Option Nat × Memory :=
  MapByAlpha3.runLoop tab alpha3 mem.Data mem

/-- Go `(*CountryInfoClient).MapByCurrency` on a memory: the state of the loop is
`rowList` and the memory. -/
def MapByCurrency.run (tab : Char → Char) (currency : String) (mem : Memory) :
    List Nat × Memory :=
  mem.Data.foldl
    (fun st row =>
      let lowered := CurrencyLower.run tab row st.2
      if stringInSlice (ToLower tab currency) lowered.1 then (st.1 ++ [row], lowered.2)
      else (st.1, lowered.2))
    ([], mem)

/-- Go `(*CountryInfoClient).MapByCallingCode` on a memory. -/
def MapByCallingCode.run (tab : Char → Char) (callingCode : String) (mem : Memory) :
    List Nat × Memory :=
  mem.Data.foldl
    (fun st row =>
      let lowered := CallingCodeLower.run tab row st.2
      if stringInSlice (ToLower tab callingCode) lowered.1 then (st.1 ++ [row], lowered.2)
      else (st.1, lowered.2))
    ([], mem)

/-- Go `(*CountryInfoClient).MapByRegion` on a memory. -/
def MapByRegion.run (tab : Char → Char) (region : String) (mem : Memory) :
    List Nat × Memory :=
  mem.Data.foldl
    (fun st row =>
      if ToLower tab (st.2.cell row).Region = ToLower tab region then (st.1 ++ [row], st.2)
      else (st.1, st.2))
    ([], mem)

/-- Go `(*CountryInfoClient).MapBySubregion` on a memory. -/
def MapBySubregion.run (tab : Char → Char) (subregion : String) (mem : Memory) :
    List Nat × Memory :=
  mem.Data.foldl
    (fun st row =>
      if ToLower tab (st.2.cell row).Subregion = ToLower tab subregion then
        (st.1 ++ [row], st.2)
      else (st.1, st.2))
    ([], mem)

/-! ## Lemmas on the loops -/

theorem stringInSlice_iff (a : String) (list : List String) :
    stringInSlice a list = true ↔ a ∈ list := by
  induction list with
  | nil => simp [stringInSlice]
  | cons b list ih =>
    by_cases hb : b = a
    · simp [stringInSlice, hb]
    · have hb2 : ¬ a = b := fun h => hb h.symm
      simp [stringInSlice, hb, hb2, ih]

theorem foldl_append_map {α β : Type} (f : α → β) (l : List α) (init : List β) :
    l.foldl (fun updated x => updated ++ [f x]) init = init ++ l.map f := by
  induction l generalizing init with
  | nil => simp
  | cons x l ih => simp [ih]

theorem foldl_append_filter {α : Type} (p : α → Prop) [DecidablePred p] (l : List α)
    (init : List α) :
    l.foldl (fun rowList row => if p row then rowList ++ [row] else rowList) init
      = init ++ l.filter (fun row => decide (p row)) := by
  induction l generalizing init with
  | nil => simp
  | cons x l ih =>
    by_cases hx : p x
    · simp [ih, hx]
    · simp [ih, hx]

theorem AlternateNamesLower_eq (tab : Char → Char) (r : CountryInfo) :
    r.AlternateNamesLower tab = r.AlternateNames.map (ToLower tab) := by
  simp [CountryInfo.AlternateNamesLower, foldl_append_map]

theorem CurrencyLower_eq (tab : Char → Char) (r : CountryInfo) :
    r.CurrencyLower tab = r.Currency.map (ToLower tab) := by
  simp [CountryInfo.CurrencyLower, foldl_append_map]

theorem CallingCodeLower_eq (tab : Char → Char) (r : CountryInfo) :
    r.CallingCodeLower tab = r.CallingCode.map (ToLower tab) := by
  simp [CountryInfo.CallingCodeLower, foldl_append_map]

theorem stringInSlice_lower_iff (tab : Char → Char) (q : String) (list : List String) :
    stringInSlice (ToLower tab q) (list.map (ToLower tab)) = true
      ↔ ContainsIgnoreCase tab q list := by
  rw [stringInSlice_iff]
  simp only [List.mem_map, ContainsIgnoreCase, EqIgnoreCase]

theorem MapByName_loop_eq_find (tab : Char → Char) (q : String) (l : List CountryInfo) :
    MapByName.loop tab q l = l.find? (fun r => decide (NameMatches tab q r)) := by
  induction l with
  | nil => rfl
  | cons row rest ih =>
    have halt : stringInSlice (ToLower tab q) (row.AlternateNamesLower tab) = true
        ↔ ∃ a ∈ row.AlternateNames, EqIgnoreCase tab a q := by
      rw [AlternateNamesLower_eq]
      exact stringInSlice_lower_iff tab q row.AlternateNames
    by_cases h1 : ToLower tab row.Name = ToLower tab q
    · have hm : NameMatches tab q row := Or.inl h1
      simp [MapByName.loop, h1, hm]
    · by_cases h2 : stringInSlice (ToLower tab q) (row.AlternateNamesLower tab) = true
      · have hm : NameMatches tab q row := Or.inr (halt.mp h2)
        simp [MapByName.loop, h1, h2, hm]
      · have hm : ¬ NameMatches tab q row := by
          rintro (h | h)
          · exact h1 h
          · exact h2 (halt.mpr h)
        simp [MapByName.loop, h1, h2, hm, ih]

/-- The first element satisfying `p`, with its position: it is what `find?`
returns, and nothing before it satisfies `p`. -/
theorem find_first_index {α : Type} (p : α → Prop) [DecidablePred p] (l : List α)
    (h : ∃ x ∈ l, p x) :
    ∃ (i : Nat) (r : α), l[i]? = some r ∧ l.find? (fun x => decide (p x)) = some r ∧ p r ∧
      ∀ j : Nat, j < i → ∀ r2 : α, l[j]? = some r2 → ¬ p r2 := by
  induction l with
  | nil => simp at h
  | cons x l ih =>
    by_cases hx : p x
    · refine ⟨0, x, by simp, by simp [hx], hx, ?_⟩
      intro j hj
      omega
    · have h2 : ∃ y ∈ l, p y := by
        obtain ⟨y, hy, hpy⟩ := h
        rcases List.mem_cons.mp hy with rfl | hy
        · exact absurd hpy hx
        · exact ⟨y, hy, hpy⟩
      obtain ⟨i, r, hi, hf, hr, hlt⟩ := ih h2
      refine ⟨i + 1, r, by simpa using hi, by simp [hx, hf], hr, ?_⟩
      intro j hj r2 hj2
      cases j with
      | zero =>
        simp at hj2
        subst hj2
        exact hx
      | succ j =>
        simp at hj2
        exact hlt j (by omega) r2 hj2

theorem MapByAlpha2_loop_eq_find (tab : Char → Char) (q : String) (l : List CountryInfo) :
    MapByAlpha2.loop tab q l = l.find? (fun r => decide (EqIgnoreCase tab r.Alpha2 q)) := by
  induction l with
  | nil => rfl
  | cons row rest ih =>
    by_cases h1 : ToLower tab row.Alpha2 = ToLower tab q
    · simp [MapByAlpha2.loop, EqIgnoreCase, h1]
    · simp [MapByAlpha2.loop, EqIgnoreCase, h1, ih]

theorem MapByAlpha3_loop_eq_find (tab : Char → Char) (q : String) (l : List CountryInfo) :
    MapByAlpha3.loop tab q l = l.find? (fun r => decide (EqIgnoreCase tab r.Alpha3 q)) := by
  induction l with
  | nil => rfl
  | cons row rest ih =>
    by_cases h1 : ToLower tab row.Alpha3 = ToLower tab q
    · simp [MapByAlpha3.loop, EqIgnoreCase, h1]
    · simp [MapByAlpha3.loop, EqIgnoreCase, h1, ih]

theorem find_decide_eq_none {α : Type} (p : α → Prop) [DecidablePred p] (l : List α) :
    l.find? (fun x => decide (p x)) = none ↔ ∀ x ∈ l, ¬ p x := by
  simp [List.find?_eq_none]

theorem filter_decide_eq_nil {α : Type} (p : α → Prop) [DecidablePred p] (l : List α) :
    l.filter (fun x => decide (p x)) = [] ↔ ∀ x ∈ l, ¬ p x := by
  simp [List.filter_eq_nil_iff]

theorem MapByCurrency_eq_filter (tab : Char → Char) (c : CountryInfoClient) (q : String) :
    c.MapByCurrency tab q
      = c.Data.filter (fun r => decide (ContainsIgnoreCase tab q r.Currency)) := by
  have hp : ∀ row : CountryInfo,
      (stringInSlice (ToLower tab q) (row.CurrencyLower tab) = true)
        = ContainsIgnoreCase tab q row.Currency := by
    intro row
    rw [CurrencyLower_eq]
    exact propext (stringInSlice_lower_iff tab q row.Currency)
  have h := foldl_append_filter (fun r : CountryInfo => ContainsIgnoreCase tab q r.Currency)
    c.Data []
  simp only [List.nil_append] at h
  rw [← h, CountryInfoClient.MapByCurrency]
  congr 1
  funext rowList row
  by_cases hm : ContainsIgnoreCase tab q row.Currency
  · have hs : stringInSlice (ToLower tab q) (row.CurrencyLower tab) = true := by
      rw [hp]; exact hm
    simp [hs, hm]
  · have hs : ¬ stringInSlice (ToLower tab q) (row.CurrencyLower tab) = true := by
      rw [hp]; exact hm
    simp [hs, hm]

theorem MapByCallingCode_eq_filter (tab : Char → Char) (c : CountryInfoClient) (q : String) :
    c.MapByCallingCode tab q
      = c.Data.filter (fun r => decide (ContainsIgnoreCase tab q r.CallingCode)) := by
  have hp : ∀ row : CountryInfo,
      (stringInSlice (ToLower tab q) (row.CallingCodeLower tab) = true)
        = ContainsIgnoreCase tab q row.CallingCode := by
    intro row
    rw [CallingCodeLower_eq]
    exact propext (stringInSlice_lower_iff tab q row.CallingCode)
  have h := foldl_append_filter (fun r : CountryInfo => ContainsIgnoreCase tab q r.CallingCode)
    c.Data []
  simp only [List.nil_append] at h
  rw [← h, CountryInfoClient.MapByCallingCode]
  congr 1
  funext rowList row
  by_cases hm : ContainsIgnoreCase tab q row.CallingCode
  · have hs : stringInSlice (ToLower tab q) (row.CallingCodeLower tab) = true := by
      rw [hp]; exact hm
    simp [hs, hm]
  · have hs : ¬ stringInSlice (ToLower tab q) (row.CallingCodeLower tab) = true := by
      rw [hp]; exact hm
    simp [hs, hm]

theorem MapByRegion_eq_filter (tab : Char → Char) (c : CountryInfoClient) (q : String) :
    c.MapByRegion tab q = c.Data.filter (fun r => decide (EqIgnoreCase tab r.Region q)) := by
  have h := foldl_append_filter (fun r : CountryInfo => EqIgnoreCase tab r.Region q) c.Data []
  simp only [List.nil_append] at h
  rw [← h]
  rfl

theorem MapBySubregion_eq_filter (tab : Char → Char) (c : CountryInfoClient) (q : String) :
    c.MapBySubregion tab q
      = c.Data.filter (fun r => decide (EqIgnoreCase tab r.Subregion q)) := by
  have h := foldl_append_filter (fun r : CountryInfo => EqIgnoreCase tab r.Subregion q) c.Data []
  simp only [List.nil_append] at h
  rw [← h]
  rfl

theorem splitLoop_take_one (sep : Char) (cur cs : List Char) :
    (splitLoop sep cur cs).take 1
      = [⟨cur.reverse ++ cs.takeWhile (fun c => decide (c ≠ sep))⟩] := by
  induction cs generalizing cur with
  | nil => simp [splitLoop]
  | cons c cs ih =>
    by_cases hc : c = sep
    · simp [splitLoop, hc]
    · simp [splitLoop, hc, ih]

theorem Split_take_one (s : String) (sep : Char) :
    (Split s sep).take 1 = [⟨s.data.takeWhile (fun c => decide (c ≠ sep))⟩] := by
  simp [Split, splitLoop_take_one]

theorem splitLoop_ne_nil (sep : Char) (cur cs : List Char) : splitLoop sep cur cs ≠ [] := by
  induction cs generalizing cur with
  | nil => simp [splitLoop]
  | cons c cs ih =>
    by_cases hc : c = sep
    · simp [splitLoop, hc]
    · simpa [splitLoop, hc] using ih (c :: cur)

theorem splitLoop_intercalate (sep : Char) (cur cs : List Char) :
    [sep].intercalate ((splitLoop sep cur cs).map String.data) = cur.reverse ++ cs := by
  induction cs generalizing cur with
  | nil => simp [splitLoop, List.intercalate]
  | cons c cs ih =>
    by_cases hc : c = sep
    · have h := ih []
      cases hs : splitLoop sep [] cs with
      | nil => exact absurd hs (splitLoop_ne_nil sep [] cs)
      | cons t ts =>
        rw [hs] at h
        simp only [List.intercalate, List.map_cons, List.reverse_nil, List.nil_append] at h
        simp [splitLoop, hc, hs, List.intercalate, h]
    · simpa [splitLoop, hc] using ih (c :: cur)

theorem splitLoop_no_sep (sep : Char) (cur cs : List Char) (hcur : sep ∉ cur) :
    ∀ t ∈ splitLoop sep cur cs, sep ∉ t.data := by
  induction cs generalizing cur with
  | nil => simpa [splitLoop] using hcur
  | cons c cs ih =>
    by_cases hc : c = sep
    · intro t ht
      simp only [splitLoop, hc, if_true, List.mem_cons] at ht
      rcases ht with rfl | ht
      · simpa using hcur
      · exact ih [] (by simp) t ht
    · intro t ht
      simp only [splitLoop, hc, if_false] at ht
      exact ih (c :: cur) (by simp [hcur, Ne.symm hc]) t ht

/-- `Split` never returns an empty slice. -/
theorem Split_ne_nil (s : String) (sep : Char) : Split s sep ≠ [] :=
  splitLoop_ne_nil sep [] s.data

/-- Joining the tokens of `Split s sep` with `sep` gives `s` back. -/
theorem Split_intercalate (s : String) (sep : Char) :
    [sep].intercalate ((Split s sep).map String.data) = s.data := by
  simpa [Split] using splitLoop_intercalate sep [] s.data

/-- No token of `Split s sep` holds the separator. -/
theorem Split_no_sep (s : String) (sep : Char) : ∀ t ∈ Split s sep, sep ∉ t.data :=
  splitLoop_no_sep sep [] s.data (by simp)

theorem index_of_getElem {α : Type} (s : List α) (i : Nat) (x : α) (h : s[i]? = some x) :
    index s i = .ok x := by
  simp [index, h]

/-- The record of a row whose fields 0, 2, 4, 5, 6, 7, 8, 10 and 11 exist. -/
theorem Load_record_eq (row : List String) (f0 f2 f4 f5 f6 f7 f8 f10 f11 : String)
    (h0 : row[0]? = some f0) (h2 : row[2]? = some f2) (h4 : row[4]? = some f4)
    (h5 : row[5]? = some f5) (h6 : row[6]? = some f6) (h7 : row[7]? = some f7)
    (h8 : row[8]? = some f8) (h10 : row[10]? = some f10) (h11 : row[11]? = some f11) :
    Load.record row = .ok {
      Name := ⟨f0.data.takeWhile (fun c => decide (c ≠ ','))⟩
      AlternateNames := (Split f0 ',').drop 1 ++ Split f8 ','
      Alpha2 := f2
      Alpha3 := f4
      Capital := f7
      Currency := Split f5 ','
      CallingCode := Split f6 ','
      Region := f10
      Subregion := f11 } := by
  have hname : index ((Split f0 ',').take 1) 0
      = .ok (⟨f0.data.takeWhile (fun c => decide (c ≠ ','))⟩ : String) := by
    rw [Split_take_one]
    rfl
  simp only [Load.record, index_of_getElem row _ _ h0, index_of_getElem row _ _ h2,
    index_of_getElem row _ _ h4, index_of_getElem row _ _ h5, index_of_getElem row _ _ h6,
    index_of_getElem row _ _ h7, index_of_getElem row _ _ h8, index_of_getElem row _ _ h10,
    index_of_getElem row _ _ h11, bind, Except.bind, hname, pure, Except.pure]

theorem getElem_of_lt {α : Type} (s : List α) (i : Nat) (h : i < s.length) :
    ∃ x, s[i]? = some x :=
  ⟨s[i], List.getElem?_eq_getElem h⟩

theorem Load_record_ok (row : List String) (h : 12 ≤ row.length) :
    ∃ r, Load.record row = .ok r := by
  obtain ⟨f0, h0⟩ := getElem_of_lt row 0 (by omega)
  obtain ⟨f2, h2⟩ := getElem_of_lt row 2 (by omega)
  obtain ⟨f4, h4⟩ := getElem_of_lt row 4 (by omega)
  obtain ⟨f5, h5⟩ := getElem_of_lt row 5 (by omega)
  obtain ⟨f6, h6⟩ := getElem_of_lt row 6 (by omega)
  obtain ⟨f7, h7⟩ := getElem_of_lt row 7 (by omega)
  obtain ⟨f8, h8⟩ := getElem_of_lt row 8 (by omega)
  obtain ⟨f10, h10⟩ := getElem_of_lt row 10 (by omega)
  obtain ⟨f11, h11⟩ := getElem_of_lt row 11 (by omega)
  exact ⟨_, Load_record_eq row f0 f2 f4 f5 f6 f7 f8 f10 f11 h0 h2 h4 h5 h6 h7 h8 h10 h11⟩

/-- Past the header, the loop of `Load` appends one record per row, in order. -/
theorem Load_loop_succ (idx : Nat) (rows : List (List String)) (recordList : List CountryInfo)
    (h : ∀ row ∈ rows, 12 ≤ row.length) :
    ∃ recs : List CountryInfo,
      Load.loop (idx + 1) rows recordList = .ok (recordList ++ recs) ∧
      rows.map Load.record = recs.map Except.ok := by
  induction rows generalizing idx recordList with
  | nil => exact ⟨[], by simp [Load.loop], rfl⟩
  | cons row rows ih =>
    obtain ⟨r, hr⟩ := Load_record_ok row (h row (List.mem_cons_self _ _))
    obtain ⟨recs, hloop, hmap⟩ :=
      ih (idx + 1) (recordList ++ [r]) (fun x hx => h x (List.mem_cons_of_mem _ hx))
    refine ⟨r :: recs, ?_, ?_⟩
    · simp [Load.loop, hr, hloop]
    · simp [hr, hmap]

theorem bind_eq_ok {ε α β : Type} (e : Except ε α) (g : α → Except ε β) (b : β)
    (h : (e >>= g) = .ok b) : ∃ a, e = .ok a ∧ g a = .ok b := by
  cases e with
  | error x => simp [bind, Except.bind] at h
  | ok a => exact ⟨a, rfl, h⟩

theorem index_eq_ok {α : Type} (s : List α) (i : Nat) (x : α) (h : index s i = .ok x) :
    s[i]? = some x := by
  unfold index at h
  cases hs : s[i]? with
  | none => simp [hs] at h
  | some y =>
    simp only [hs, Except.ok.injEq] at h
    rw [h]

/-- A row yields a record only when it has at least 12 fields. -/
theorem Load_record_length (row : List String) (r : CountryInfo)
    (h : Load.record row = .ok r) : 12 ≤ row.length := by
  unfold Load.record at h
  obtain ⟨_, _, h⟩ := bind_eq_ok _ _ _ h
  obtain ⟨_, _, h⟩ := bind_eq_ok _ _ _ h
  obtain ⟨_, _, h⟩ := bind_eq_ok _ _ _ h
  obtain ⟨_, _, h⟩ := bind_eq_ok _ _ _ h
  obtain ⟨_, _, h⟩ := bind_eq_ok _ _ _ h
  obtain ⟨_, _, h⟩ := bind_eq_ok _ _ _ h
  obtain ⟨_, _, h⟩ := bind_eq_ok _ _ _ h
  obtain ⟨_, _, h⟩ := bind_eq_ok _ _ _ h
  obtain ⟨_, _, h⟩ := bind_eq_ok _ _ _ h
  obtain ⟨_, _, h⟩ := bind_eq_ok _ _ _ h
  obtain ⟨f11, h11, h⟩ := bind_eq_ok _ _ _ h
  have hget := index_eq_ok _ _ _ h11
  by_contra hlt
  have hnone : row[11]? = none := List.getElem?_eq_none (by omega)
  rw [hnone] at hget
  exact absurd hget (by simp)

theorem index_error {α : Type} (s : List α) (i : Nat) (f : Failure)
    (h : index s i = .error f) : ∃ j n, f = .indexOutOfRange j n := by
  unfold index at h
  cases hs : s[i]? with
  | none =>
    simp only [hs, Except.error.injEq] at h
    exact ⟨i, s.length, h.symm⟩
  | some y => simp [hs] at h

theorem bind_error_index {α β : Type} (e : Except Failure α) (g : α → Except Failure β)
    (he : ∀ f, e = .error f → ∃ j n, f = .indexOutOfRange j n)
    (hg : ∀ a f, g a = .error f → ∃ j n, f = .indexOutOfRange j n) :
    ∀ f, (e >>= g) = .error f → ∃ j n, f = .indexOutOfRange j n := by
  intro f h
  cases e with
  | error x =>
    have hx : x = f := by simpa [bind, Except.bind] using h
    exact he f (by rw [hx])
  | ok a => exact hg a f h

/-- The only failure of the loop body is the panic of an index expression. -/
theorem Load_record_error (row : List String) (f : Failure)
    (h : Load.record row = .error f) : ∃ j n, f = .indexOutOfRange j n := by
  revert f
  unfold Load.record
  refine bind_error_index _ _ (index_error _ _) (fun _ => ?_)
  refine bind_error_index _ _ (index_error _ _) (fun _ => ?_)
  refine bind_error_index _ _ (index_error _ _) (fun _ => ?_)
  refine bind_error_index _ _ (index_error _ _) (fun _ => ?_)
  refine bind_error_index _ _ (index_error _ _) (fun _ => ?_)
  refine bind_error_index _ _ (index_error _ _) (fun _ => ?_)
  refine bind_error_index _ _ (index_error _ _) (fun _ => ?_)
  refine bind_error_index _ _ (index_error _ _) (fun _ => ?_)
  refine bind_error_index _ _ (index_error _ _) (fun _ => ?_)
  refine bind_error_index _ _ (index_error _ _) (fun _ => ?_)
  refine bind_error_index _ _ (index_error _ _) (fun _ => ?_)
  intro f h
  simp [pure, Except.pure] at h

/-- A row of fewer than 12 fields makes the loop body panic. -/
theorem Load_record_short (row : List String) (h : row.length < 12) :
    ∃ j n, Load.record row = .error (.indexOutOfRange j n) := by
  cases hr : Load.record row with
  | ok r =>
    have := Load_record_length row r hr
    omega
  | error f =>
    obtain ⟨j, n, hf⟩ := Load_record_error row f hr
    exact ⟨j, n, by rw [hf]⟩

/-- Every record the loop of `Load` returns was in `recordList` or is built from
a row of `data`. -/
theorem Load_loop_mem (idx : Nat) (data : List (List String))
    (recordList recs : List CountryInfo) (h : Load.loop idx data recordList = .ok recs) :
    ∀ r ∈ recs, r ∈ recordList ∨ ∃ row ∈ data, Load.record row = .ok r := by
  induction data generalizing idx recordList with
  | nil =>
    simp only [Load.loop, Except.ok.injEq] at h
    intro r hr
    exact Or.inl (h ▸ hr)
  | cons row rest ih =>
    intro r hr
    by_cases h0 : idx = 0
    · simp only [Load.loop, h0, if_true] at h
      rcases ih _ _ h r hr with hmem | ⟨row2, hrow2, hrec⟩
      · exact Or.inl hmem
      · exact Or.inr ⟨row2, List.mem_cons_of_mem _ hrow2, hrec⟩
    · simp only [Load.loop, h0, if_false] at h
      cases hrow : Load.record row with
      | error f => simp [hrow] at h
      | ok record =>
        simp only [hrow] at h
        rcases ih _ _ h r hr with hmem | ⟨row2, hrow2, hrec⟩
        · rcases List.mem_append.mp hmem with hmem | hmem
          · exact Or.inl hmem
          · have : r = record := by simpa using hmem
            exact Or.inr ⟨row, List.mem_cons_self _ _, by rw [this]; exact hrow⟩
        · exact Or.inr ⟨row2, List.mem_cons_of_mem _ hrow2, hrec⟩

/-- A client returned by `Load` holds the records its loop built from the table
that was read. -/
theorem Load_ok_loop (env : Env) (specifiedURL : List String) (c : CountryInfoClient)
    (h : (Load env specifiedURL).1 = .ok c) :
    ∃ data, ((specifiedURL = [] ∧ readCSVFromBytes env env.defaultCountryInfo = .ok data) ∨
        (∃ url, specifiedURL = [url] ∧ readCSVFromURL env url = .ok data)) ∧
      Load.loop 0 data [] = .ok c.Data := by
  unfold Load at h
  by_cases hlen : specifiedURL.length > 1
  · simp [hlen] at h
  · simp only [hlen, if_false] at h
    cases specifiedURL with
    | nil =>
      simp only at h
      cases hread : readCSVFromBytes env env.defaultCountryInfo with
      | error err => simp [hread] at h
      | ok data =>
        simp only [hread] at h
        cases hloop : Load.loop 0 data [] with
        | error f => simp [hloop] at h
        | ok recs =>
          simp only [hloop, Except.ok.injEq] at h
          exact ⟨data, Or.inl ⟨rfl, rfl⟩, by rw [← h]; exact hloop⟩
    | cons url rest =>
      have hrest : rest = [] := by
        cases rest with
        | nil => rfl
        | cons _ _ => simp at hlen
      subst hrest
      simp only at h
      cases hread : readCSVFromURL env url with
      | error err => simp [hread] at h
      | ok data =>
        simp only [hread] at h
        cases hloop : Load.loop 0 data [] with
        | error f => simp [hloop] at h
        | ok recs =>
          simp only [hloop, Except.ok.injEq] at h
          exact ⟨data, Or.inr ⟨url, rfl, hread⟩, by rw [← h]; exact hloop⟩

/-- The loop of `Load` stops with a panic when a row past the header is short. -/
theorem Load_loop_short (idx : Nat) (rows : List (List String)) (recordList : List CountryInfo)
    (h : ∃ row ∈ rows, row.length < 12) :
    ∃ j n, Load.loop (idx + 1) rows recordList = .error (.indexOutOfRange j n) := by
  induction rows generalizing idx recordList with
  | nil => simp at h
  | cons row rest ih =>
    cases hrow : Load.record row with
    | error f =>
      obtain ⟨j, n, hf⟩ := Load_record_error row f hrow
      exact ⟨j, n, by simp [Load.loop, hrow, hf]⟩
    | ok record =>
      have hlen := Load_record_length row record hrow
      have hrest : ∃ row2 ∈ rest, row2.length < 12 := by
        obtain ⟨row2, hmem, hshort⟩ := h
        rcases List.mem_cons.mp hmem with rfl | hmem
        · omega
        · exact ⟨row2, hmem, hshort⟩
      obtain ⟨j, n, hloop⟩ := ih (idx + 1) (recordList ++ [record]) hrest
      exact ⟨j, n, by simp [Load.loop, hrow, hloop]⟩

/-- Whatever the table read, a short row past the header makes `Load` panic. -/
theorem Load_short_row_panics_any (env : Env) (specifiedURL : List String)
    (data : List (List String))
    (hsrc : (specifiedURL = [] ∧ readCSVFromBytes env env.defaultCountryInfo = .ok data) ∨
      (∃ url, specifiedURL = [url] ∧ readCSVFromURL env url = .ok data))
    (hshort : ∃ row ∈ data.tail, row.length < 12) :
    ∃ j n, (Load env specifiedURL).1 = .error (.indexOutOfRange j n) := by
  cases data with
  | nil => simp at hshort
  | cons header rows =>
    obtain ⟨j, n, hloop⟩ := Load_loop_short 0 rows [] hshort
    have hloop0 : Load.loop 0 (header :: rows) [] = .error (.indexOutOfRange j n) := by
      simpa [Load.loop] using hloop
    refine ⟨j, n, ?_⟩
    rcases hsrc with ⟨rfl, hread⟩ | ⟨url, rfl, hread⟩
    · simp [Load, hread, hloop0]
    · simp [Load, hread, hloop0]

/-- When the loop of `Load` succeeds past the header, every row has its record
in the result. -/
theorem Load_loop_all (idx : Nat) (rows : List (List String)) (recs : List CountryInfo)
    (h : Load.loop (idx + 1) rows [] = .ok recs) :
    ∀ row ∈ rows, ∃ r ∈ recs, Load.record row = .ok r := by
  have hlen : ∀ row ∈ rows, 12 ≤ row.length := by
    intro row hrow
    by_contra hlt
    obtain ⟨j, n, herr⟩ := Load_loop_short idx rows [] ⟨row, hrow, by omega⟩
    rw [herr] at h
    exact absurd h (by simp)
  obtain ⟨recs2, hloop, hmap⟩ := Load_loop_succ idx rows [] hlen
  rw [hloop] at h
  have hrecs : recs2 = recs := by simpa using h
  subst hrecs
  intro row hrow
  have hmem : Load.record row ∈ rows.map Load.record := List.mem_map_of_mem _ hrow
  rw [hmap] at hmem
  obtain ⟨r, hr, hrr⟩ := List.mem_map.mp hmem
  exact ⟨r, hr, hrr.symm⟩

/-- The record at position `i` is what `find?` returns when it satisfies `p`
and nothing before it does. -/
theorem find_of_first {α : Type} (p : α → Prop) [DecidablePred p] (l : List α) (i : Nat)
    (r : α) (hi : l[i]? = some r) (hp : p r)
    (hlt : ∀ k : Nat, k < i → ∀ r2 : α, l[k]? = some r2 → ¬ p r2) :
    l.find? (fun x => decide (p x)) = some r := by
  induction l generalizing i with
  | nil => simp at hi
  | cons x l ih =>
    cases i with
    | zero =>
      simp at hi
      subst hi
      simp [hp]
    | succ i =>
      have hx : ¬ p x := hlt 0 (by omega) x (by simp)
      simp only [List.getElem?_cons_succ] at hi
      have := ih i hi (fun k hk r2 hk2 => hlt (k + 1) (by omega) r2 (by simpa using hk2))
      simp [hx, this]

theorem find_ne_none_of_getElem {α : Type} (p : α → Prop) [DecidablePred p] (l : List α)
    (i : Nat) (r : α) (hi : l[i]? = some r) (hp : p r) :
    l.find? (fun x => decide (p x)) ≠ none := by
  intro hnone
  exact (find_decide_eq_none p l).mp hnone r (List.getElem?_mem hi) hp

theorem ToLower_empty (tab : Char → Char) : ToLower tab "" = "" := rfl

theorem Split_empty (sep : Char) : Split "" sep = [""] := rfl

/-- The record of a row of at least 12 fields, with the fields it reads. -/
theorem Load_record_of_length (row : List String) (h : 12 ≤ row.length) :
    ∃ f0 f2 f4 f5 f6 f7 f8 f10 f11 : String, row[0]? = some f0 ∧ row[8]? = some f8 ∧
      Load.record row = .ok {
        Name := ⟨f0.data.takeWhile (fun c => decide (c ≠ ','))⟩
        AlternateNames := (Split f0 ',').drop 1 ++ Split f8 ','
        Alpha2 := f2
        Alpha3 := f4
        Capital := f7
        Currency := Split f5 ','
        CallingCode := Split f6 ','
        Region := f10
        Subregion := f11 } := by
  obtain ⟨f0, h0⟩ := getElem_of_lt row 0 (by omega)
  obtain ⟨f2, h2⟩ := getElem_of_lt row 2 (by omega)
  obtain ⟨f4, h4⟩ := getElem_of_lt row 4 (by omega)
  obtain ⟨f5, h5⟩ := getElem_of_lt row 5 (by omega)
  obtain ⟨f6, h6⟩ := getElem_of_lt row 6 (by omega)
  obtain ⟨f7, h7⟩ := getElem_of_lt row 7 (by omega)
  obtain ⟨f8, h8⟩ := getElem_of_lt row 8 (by omega)
  obtain ⟨f10, h10⟩ := getElem_of_lt row 10 (by omega)
  obtain ⟨f11, h11⟩ := getElem_of_lt row 11 (by omega)
  exact ⟨f0, f2, f4, f5, f6, f7, f8, f10, f11, h0, h8,
    Load_record_eq row f0 f2 f4 f5 f6 f7 f8 f10 f11 h0 h2 h4 h5 h6 h7 h8 h10 h11⟩

/-- A record built from a row whose field 8 is empty has the empty string among
its alternate names. -/
theorem Load_record_empty_field8 (row : List String) (r : CountryInfo)
    (hrec : Load.record row = .ok r) (h8 : row[8]? = some "") : "" ∈ r.AlternateNames := by
  have hlen := Load_record_length row r hrec
  obtain ⟨f0, f2, f4, f5, f6, f7, f8, f10, f11, _, h8b, hr2⟩ := Load_record_of_length row hlen
  have hf8 : f8 = "" := by
    rw [h8] at h8b
    exact (Option.some.inj h8b).symm
  subst hf8
  have heq : r = _ := Except.ok.inj (hrec.symm.trans hr2)
  subst heq
  simp [Split_empty]

/-- The table named by `Load_ok_loop` is the table that was read. -/
theorem Load_ok_loop_of_source (env : Env) (specifiedURL : List String)
    (data : List (List String)) (c : CountryInfoClient)
    (hsrc : (specifiedURL = [] ∧ readCSVFromBytes env env.defaultCountryInfo = .ok data) ∨
      (∃ url, specifiedURL = [url] ∧ readCSVFromURL env url = .ok data))
    (h : (Load env specifiedURL).1 = .ok c) : Load.loop 0 data [] = .ok c.Data := by
  obtain ⟨data2, hsrc2, hloop⟩ := Load_ok_loop env specifiedURL c h
  have hdata : data2 = data := by
    rcases hsrc with ⟨hnil, hread⟩ | ⟨url, hurl, hread⟩
    · rcases hsrc2 with ⟨_, hread2⟩ | ⟨url2, hurl2, _⟩
      · exact Except.ok.inj (hread2.symm.trans hread)
      · rw [hnil] at hurl2
        simp at hurl2
    · rcases hsrc2 with ⟨hnil2, _⟩ | ⟨url2, hurl2, hread2⟩
      · rw [hurl] at hnil2
        simp at hnil2
      · rw [hurl] at hurl2
        have hu : url = url2 := by simpa using hurl2
        subst hu
        exact Except.ok.inj (hread2.symm.trans hread)
  rw [← hdata]
  exact hloop

theorem foldl_lower_run (tab : Char → Char) (l init : List String) (mem : Memory) :
    l.foldl (fun (st : List String × Memory) x => (st.1 ++ [ToLower tab x], st.2)) (init, mem)
      = (l.foldl (fun updated x => updated ++ [ToLower tab x]) init, mem) := by
  induction l generalizing init with
  | nil => rfl
  | cons x l ih => simp only [List.foldl_cons, ih]

theorem AlternateNamesLower_run_eq (tab : Char → Char) (c : Nat) (mem : Memory) :
    AlternateNamesLower.run tab c mem = ((mem.cell c).AlternateNamesLower tab, mem) :=
  foldl_lower_run tab (mem.cell c).AlternateNames [] mem

theorem CurrencyLower_run_eq (tab : Char → Char) (c : Nat) (mem : Memory) :
    CurrencyLower.run tab c mem = ((mem.cell c).CurrencyLower tab, mem) :=
  foldl_lower_run tab (mem.cell c).Currency [] mem

theorem CallingCodeLower_run_eq (tab : Char → Char) (c : Nat) (mem : Memory) :
    CallingCodeLower.run tab c mem = ((mem.cell c).CallingCodeLower tab, mem) :=
  foldl_lower_run tab (mem.cell c).CallingCode [] mem

theorem MapByName_runLoop_eq (tab : Char → Char) (q : String) (ps : List Nat) (mem : Memory) :
    (MapByName.runLoop tab q ps mem).2 = mem ∧
    (MapByName.runLoop tab q ps mem).1.map mem.cell
      = MapByName.loop tab q (ps.map mem.cell) := by
  induction ps with
  | nil => exact ⟨rfl, rfl⟩
  | cons row rest ih =>
    by_cases h1 : ToLower tab (mem.cell row).Name = ToLower tab q
    · simp [MapByName.runLoop, MapByName.loop, h1]
    · by_cases h2 : stringInSlice (ToLower tab q) ((mem.cell row).AlternateNamesLower tab)
          = true
      · simp [MapByName.runLoop, MapByName.loop, h1, h2, AlternateNamesLower_run_eq]
      · simp only [MapByName.runLoop, MapByName.loop, h1, h2, AlternateNamesLower_run_eq,
          List.map_cons, if_false]
        exact ih

theorem MapByAlpha2_runLoop_eq (tab : Char → Char) (q : String) (ps : List Nat)
    (mem : Memory) :
    (MapByAlpha2.runLoop tab q ps mem).2 = mem ∧
    (MapByAlpha2.runLoop tab q ps mem).1.map mem.cell
      = MapByAlpha2.loop tab q (ps.map mem.cell) := by
  induction ps with
  | nil => exact ⟨rfl, rfl⟩
  | cons row rest ih =>
    by_cases h1 : ToLower tab (mem.cell row).Alpha2 = ToLower tab q
    · simp [MapByAlpha2.runLoop, MapByAlpha2.loop, h1]
    · simp only [MapByAlpha2.runLoop, MapByAlpha2.loop, h1, List.map_cons, if_false]
      exact ih

theorem MapByAlpha3_runLoop_eq (tab : Char → Char) (q : String) (ps : List Nat)
    (mem : Memory) :
    (MapByAlpha3.runLoop tab q ps mem).2 = mem ∧
    (MapByAlpha3.runLoop tab q ps mem).1.map mem.cell
      = MapByAlpha3.loop tab q (ps.map mem.cell) := by
  induction ps with
  | nil => exact ⟨rfl, rfl⟩
  | cons row rest ih =>
    by_cases h1 : ToLower tab (mem.cell row).Alpha3 = ToLower tab q
    · simp [MapByAlpha3.runLoop, MapByAlpha3.loop, h1]
    · simp only [MapByAlpha3.runLoop, MapByAlpha3.loop, h1, List.map_cons, if_false]
      exact ih

/-- A loop that appends the pointers passing a test on the record they address,
and hands the memory on as it is: the memory comes out unchanged, and the
records addressed by the result are those of the same loop over the records. -/
theorem foldl_run_eq (test : CountryInfo → Bool) (mem : Memory) (ps acc : List Nat)
    (f : List Nat × Memory → Nat → List Nat × Memory)
    (hf : ∀ (rowList : List Nat) (row : Nat),
      f (rowList, mem) row = (if test (mem.cell row) then rowList ++ [row] else rowList, mem)) :
    (ps.foldl f (acc, mem)).2 = mem ∧
    (ps.foldl f (acc, mem)).1.map mem.cell
      = (ps.map mem.cell).foldl
          (fun rowList row => if test row then rowList ++ [row] else rowList)
          (acc.map mem.cell) := by
  induction ps generalizing acc with
  | nil => exact ⟨rfl, rfl⟩
  | cons row rest ih =>
    simp only [List.foldl_cons, List.map_cons, hf]
    by_cases ht : test (mem.cell row) = true
    · simp only [ht, if_true]
      have := ih (acc ++ [row])
      simpa using this
    · simp only [ht]
      exact ih acc

theorem MapByCurrency_run_eq (tab : Char → Char) (q : String) (mem : Memory) :
    (MapByCurrency.run tab q mem).2 = mem ∧
    (MapByCurrency.run tab q mem).1.map mem.cell = mem.catalog.MapByCurrency tab q := by
  have h := foldl_run_eq
    (fun r => stringInSlice (ToLower tab q) (r.CurrencyLower tab)) mem mem.Data []
    (fun st row =>
      let lowered := CurrencyLower.run tab row st.2
      if stringInSlice (ToLower tab q) lowered.1 then (st.1 ++ [row], lowered.2)
      else (st.1, lowered.2))
    (by
      intro rowList row
      simp only [CurrencyLower_run_eq]
      split <;> rfl)
  exact h

theorem MapByCallingCode_run_eq (tab : Char → Char) (q : String) (mem : Memory) :
    (MapByCallingCode.run tab q mem).2 = mem ∧
    (MapByCallingCode.run tab q mem).1.map mem.cell = mem.catalog.MapByCallingCode tab q := by
  have h := foldl_run_eq
    (fun r => stringInSlice (ToLower tab q) (r.CallingCodeLower tab)) mem mem.Data []
    (fun st row =>
      let lowered := CallingCodeLower.run tab row st.2
      if stringInSlice (ToLower tab q) lowered.1 then (st.1 ++ [row], lowered.2)
      else (st.1, lowered.2))
    (by
      intro rowList row
      simp only [CallingCodeLower_run_eq]
      split <;> rfl)
  exact h

theorem MapByRegion_run_eq (tab : Char → Char) (q : String) (mem : Memory) :
    (MapByRegion.run tab q mem).2 = mem ∧
    (MapByRegion.run tab q mem).1.map mem.cell = mem.catalog.MapByRegion tab q := by
  have h := foldl_run_eq
    (fun r => decide (ToLower tab r.Region = ToLower tab q)) mem mem.Data []
    (fun st row =>
      if ToLower tab (st.2.cell row).Region = ToLower tab q then (st.1 ++ [row], st.2)
      else (st.1, st.2))
    (by
      intro rowList row
      by_cases hq : ToLower tab (mem.cell row).Region = ToLower tab q
      · simp [hq]
      · simp [hq])
  simp only [decide_eq_true_eq] at h
  exact h

theorem MapBySubregion_run_eq (tab : Char → Char) (q : String) (mem : Memory) :
    (MapBySubregion.run tab q mem).2 = mem ∧
    (MapBySubregion.run tab q mem).1.map mem.cell = mem.catalog.MapBySubregion tab q := by
  have h := foldl_run_eq
    (fun r => decide (ToLower tab r.Subregion = ToLower tab q)) mem mem.Data []
    (fun st row =>
      if ToLower tab (st.2.cell row).Subregion = ToLower tab q then (st.1 ++ [row], st.2)
      else (st.1, st.2))
    (by
      intro rowList row
      by_cases hq : ToLower tab (mem.cell row).Subregion = ToLower tab q
      · simp [hq]
      · simp [hq])
  simp only [decide_eq_true_eq] at h
  exact h

/-! ## Claims -/

/-- C1: when some record of the catalog matches `q` (by `Name` or by an element
of `AlternateNames`, ignoring case), `MapByName` returns the matching record
with the smallest index; `MapByName` is "find first" over `c.Data` with that
predicate. -/
theorem MapByName_first_match (tab : Char → Char) (c : CountryInfoClient) (q : String)
    (h : ∃ r ∈ c.Data, NameMatches tab q r) :
    c.MapByName tab q = c.Data.find? (fun r => decide (NameMatches tab q r)) ∧
    ∃ (i : Nat) (r : CountryInfo),
      c.Data[i]? = some r ∧ c.MapByName tab q = some r ∧ NameMatches tab q r ∧
      ∀ j : Nat, j < i → ∀ r2 : CountryInfo, c.Data[j]? = some r2 → ¬ NameMatches tab q r2 := by
  have hfind := MapByName_loop_eq_find tab q c.Data
  refine ⟨hfind, ?_⟩
  obtain ⟨i, r, hi, hf, hr, hlt⟩ := find_first_index (NameMatches tab q) c.Data h
  exact ⟨i, r, hi, by rw [CountryInfoClient.MapByName, hfind, hf], hr, hlt⟩

/-- C1 at the two-record catalog and the query `KOREA`, which both records match
through an alternate name. -/
theorem MapByName_first_match_witness :
    (∃ r ∈ sampleCatalog.Data, NameMatches (fun r => r) "KOREA" r) ∧
    (sampleCatalog.MapByName (fun r => r) "KOREA"
        = sampleCatalog.Data.find? (fun r => decide (NameMatches (fun r => r) "KOREA" r)) ∧
      ∃ (i : Nat) (r : CountryInfo),
        sampleCatalog.Data[i]? = some r ∧ sampleCatalog.MapByName (fun r => r) "KOREA" = some r ∧
        NameMatches (fun r => r) "KOREA" r ∧
        ∀ j : Nat, j < i → ∀ r2 : CountryInfo, sampleCatalog.Data[j]? = some r2 →
          ¬ NameMatches (fun r => r) "KOREA" r2) :=
  ⟨by decide, MapByName_first_match (fun r => r) sampleCatalog "KOREA" (by decide)⟩

/-- C2: `MapByName` returns the absent value exactly when no record of the
catalog has a `Name` equal to `q` ignoring case and none has an alternate name
equal to `q` ignoring case; it has no error outcome: the result is absent or a
record of the catalog. -/
theorem MapByName_none_iff (tab : Char → Char) (c : CountryInfoClient) (q : String) :
    (c.MapByName tab q = none ↔
      (∀ r ∈ c.Data, ¬ EqIgnoreCase tab r.Name q) ∧
      (∀ r ∈ c.Data, ∀ a ∈ r.AlternateNames, ¬ EqIgnoreCase tab a q)) ∧
    (c.MapByName tab q = none ∨ ∃ r ∈ c.Data, c.MapByName tab q = some r) := by
  have hfind : c.MapByName tab q = c.Data.find? (fun r => decide (NameMatches tab q r)) :=
    MapByName_loop_eq_find tab q c.Data
  constructor
  · rw [hfind, find_decide_eq_none]
    constructor
    · intro h
      exact ⟨fun r hr hn => h r hr (Or.inl hn),
        fun r hr a ha hn => h r hr (Or.inr ⟨a, ha, hn⟩)⟩
    · rintro ⟨h1, h2⟩ r hr (hn | ⟨a, ha, hn⟩)
      · exact h1 r hr hn
      · exact h2 r hr a ha hn
  · rw [hfind]
    cases hf : c.Data.find? (fun r => decide (NameMatches tab q r)) with
    | none => exact Or.inl rfl
    | some r => exact Or.inr ⟨r, List.mem_of_find?_eq_some hf, rfl⟩

/-- C3: `MapByAlpha2` returns the first record in catalog order whose `Alpha2`
equals `q` ignoring case and nil when there is none; `MapByAlpha3` does the same
with `Alpha3`. -/
theorem MapByAlpha_first_match (tab : Char → Char) (c : CountryInfoClient) (q : String) :
    c.MapByAlpha2 tab q = c.Data.find? (fun r => decide (EqIgnoreCase tab r.Alpha2 q)) ∧
    (c.MapByAlpha2 tab q = none ↔ ∀ r ∈ c.Data, ¬ EqIgnoreCase tab r.Alpha2 q) ∧
    c.MapByAlpha3 tab q = c.Data.find? (fun r => decide (EqIgnoreCase tab r.Alpha3 q)) ∧
    (c.MapByAlpha3 tab q = none ↔ ∀ r ∈ c.Data, ¬ EqIgnoreCase tab r.Alpha3 q) := by
  have h2 : c.MapByAlpha2 tab q
      = c.Data.find? (fun r => decide (EqIgnoreCase tab r.Alpha2 q)) :=
    MapByAlpha2_loop_eq_find tab q c.Data
  have h3 : c.MapByAlpha3 tab q
      = c.Data.find? (fun r => decide (EqIgnoreCase tab r.Alpha3 q)) :=
    MapByAlpha3_loop_eq_find tab q c.Data
  refine ⟨h2, ?_, h3, ?_⟩
  · rw [h2]
    exact find_decide_eq_none (fun r : CountryInfo => EqIgnoreCase tab r.Alpha2 q) c.Data
  · rw [h3]
    exact find_decide_eq_none (fun r : CountryInfo => EqIgnoreCase tab r.Alpha3 q) c.Data

/-- C4: `MapByCurrency` is the catalog filtered, in catalog order, to the records
whose `Currency` list holds an element equal to `q` ignoring case, each record
once per occurrence in the catalog (a matching record occurs in the result as
often as in the catalog, however often it lists the currency);
`MapByCallingCode` is the same filter over `CallingCode`; the first element of
either result is the earliest matching record of the catalog. -/
theorem MapByCurrency_MapByCallingCode_filter (tab : Char → Char) (c : CountryInfoClient)
    (q : String) :
    c.MapByCurrency tab q
      = c.Data.filter (fun r => decide (ContainsIgnoreCase tab q r.Currency)) ∧
    c.MapByCallingCode tab q
      = c.Data.filter (fun r => decide (ContainsIgnoreCase tab q r.CallingCode)) ∧
    (∀ r : CountryInfo, ContainsIgnoreCase tab q r.Currency →
      (c.MapByCurrency tab q).count r = c.Data.count r) ∧
    (∀ r : CountryInfo, ContainsIgnoreCase tab q r.CallingCode →
      (c.MapByCallingCode tab q).count r = c.Data.count r) ∧
    (c.MapByCurrency tab q).head?
      = c.Data.find? (fun r => decide (ContainsIgnoreCase tab q r.Currency)) ∧
    (c.MapByCallingCode tab q).head?
      = c.Data.find? (fun r => decide (ContainsIgnoreCase tab q r.CallingCode)) := by
  refine ⟨MapByCurrency_eq_filter tab c q, MapByCallingCode_eq_filter tab c q, ?_, ?_, ?_, ?_⟩
  · intro r hr
    rw [MapByCurrency_eq_filter]
    exact List.count_filter (decide_eq_true hr)
  · intro r hr
    rw [MapByCallingCode_eq_filter]
    exact List.count_filter (decide_eq_true hr)
  · rw [MapByCurrency_eq_filter, List.filter_head?]
  · rw [MapByCallingCode_eq_filter, List.filter_head?]

/-- C5: `MapByRegion` is the catalog filtered, in catalog order, to the records
whose `Region` equals `q` ignoring case, and `MapBySubregion` the same with
`Subregion`; each is the empty sequence exactly when no record matches. -/
theorem MapByRegion_MapBySubregion_filter (tab : Char → Char) (c : CountryInfoClient)
    (q : String) :
    c.MapByRegion tab q = c.Data.filter (fun r => decide (EqIgnoreCase tab r.Region q)) ∧
    c.MapBySubregion tab q
      = c.Data.filter (fun r => decide (EqIgnoreCase tab r.Subregion q)) ∧
    (c.MapByRegion tab q = [] ↔ ∀ r ∈ c.Data, ¬ EqIgnoreCase tab r.Region q) ∧
    (c.MapBySubregion tab q = [] ↔ ∀ r ∈ c.Data, ¬ EqIgnoreCase tab r.Subregion q) := by
  refine ⟨MapByRegion_eq_filter tab c q, MapBySubregion_eq_filter tab c q, ?_, ?_⟩
  · rw [MapByRegion_eq_filter]
    exact filter_decide_eq_nil (fun r : CountryInfo => EqIgnoreCase tab r.Region q) c.Data
  · rw [MapBySubregion_eq_filter]
    exact filter_decide_eq_nil (fun r : CountryInfo => EqIgnoreCase tab r.Subregion q) c.Data

/-- C6 fails as stated: on a catalog whose record has `Region = "OCEANIA"`,
`MapByRegion("Oceania")` returns that record, whose `Region` is not the string
`"Oceania"`. -/
theorem MapByRegion_Oceania_not_exact :
    ¬ ∀ r ∈ capitalsCatalog.MapByRegion (fun r => r) "Oceania", r.Region = "Oceania" := by
  decide

/-- C6 amended: every record returned by `MapByRegion("Oceania")` is a record of
the catalog whose `Region` equals `"Oceania"` ignoring case: its lower-cased
`Region` is `"oceania"`. -/
theorem MapByRegion_Oceania_ignoring_case (tab : Char → Char) (c : CountryInfoClient)
    (r : CountryInfo) (h : r ∈ c.MapByRegion tab "Oceania") :
    r ∈ c.Data ∧ EqIgnoreCase tab r.Region "Oceania" ∧ ToLower tab r.Region = "oceania" := by
  rw [MapByRegion_eq_filter, List.mem_filter] at h
  obtain ⟨hmem, hdec⟩ := h
  have heq : EqIgnoreCase tab r.Region "Oceania" := of_decide_eq_true hdec
  have hlow : ToLower tab "Oceania" = "oceania" := by rfl
  exact ⟨hmem, heq, heq.trans hlow⟩

/-- C6 amended, at the catalog whose record spells its region in capitals. -/
theorem MapByRegion_Oceania_ignoring_case_witness :
    (⟨"Fiji", ["Republic of Fiji"], "FJ", "FJI", "Suva", ["FJD"], ["679"], "OCEANIA",
        "Melanesia"⟩ : CountryInfo) ∈ capitalsCatalog.MapByRegion (fun r => r) "Oceania" ∧
    ((⟨"Fiji", ["Republic of Fiji"], "FJ", "FJI", "Suva", ["FJD"], ["679"], "OCEANIA",
        "Melanesia"⟩ : CountryInfo) ∈ capitalsCatalog.Data ∧
      EqIgnoreCase (fun r => r) "OCEANIA" "Oceania" ∧
      ToLower (fun r => r) "OCEANIA" = "oceania") :=
  ⟨by decide,
    MapByRegion_Oceania_ignoring_case (fun r => r) capitalsCatalog
      ⟨"Fiji", ["Republic of Fiji"], "FJ", "FJI", "Suva", ["FJD"], ["679"], "OCEANIA",
        "Melanesia"⟩ (by decide)⟩

/-- C7: with two or more source URLs `Load` returns the error
`only one url can be passed in` and no client, having performed no input: it
neither read the bundled dataset nor fetched a URL, whatever the environment
holds. -/
theorem Load_rejects_several_urls (env : Env) (specifiedURL : List String)
    (h : 2 ≤ specifiedURL.length) :
    Load env specifiedURL = (.error (.error "only one url can be passed in"), []) := by
  have h1 : specifiedURL.length > 1 := h
  simp [Load, h1]

/-- C7 at the two URLs of `Test_Load_MultipleURLs`. -/
theorem Load_rejects_several_urls_witness :
    2 ≤ ["https://foo.com", "https://bar.com"].length ∧
    Load offlineEnv ["https://foo.com", "https://bar.com"]
      = (.error (.error "only one url can be passed in"), []) :=
  ⟨by decide, Load_rejects_several_urls offlineEnv ["https://foo.com", "https://bar.com"]
    (by decide)⟩

/-- C8: the record built from a row of at least 12 fields has `Name` the first
comma-separated token of field 0 (field 0 up to its first comma), `Alpha2`
field 2, `Alpha3` field 4, `Currency` field 5 split on `,`, `CallingCode`
field 6 split on `,`, `Capital` field 7, `Region` field 10 and `Subregion`
field 11, each taken as it stands. -/
theorem Load_record_fields (row : List String) (h : 12 ≤ row.length) :
    ∃ r, Load.record row = .ok r ∧
      (∃ f0, row[0]? = some f0 ∧ (Split f0 ',').head? = some r.Name ∧
        r.Name = ⟨f0.data.takeWhile (fun c => decide (c ≠ ','))⟩) ∧
      row[2]? = some r.Alpha2 ∧
      row[4]? = some r.Alpha3 ∧
      (∃ f5, row[5]? = some f5 ∧ r.Currency = Split f5 ',') ∧
      (∃ f6, row[6]? = some f6 ∧ r.CallingCode = Split f6 ',') ∧
      row[7]? = some r.Capital ∧
      row[10]? = some r.Region ∧
      row[11]? = some r.Subregion := by
  obtain ⟨f0, h0⟩ := getElem_of_lt row 0 (by omega)
  obtain ⟨f2, h2⟩ := getElem_of_lt row 2 (by omega)
  obtain ⟨f4, h4⟩ := getElem_of_lt row 4 (by omega)
  obtain ⟨f5, h5⟩ := getElem_of_lt row 5 (by omega)
  obtain ⟨f6, h6⟩ := getElem_of_lt row 6 (by omega)
  obtain ⟨f7, h7⟩ := getElem_of_lt row 7 (by omega)
  obtain ⟨f8, h8⟩ := getElem_of_lt row 8 (by omega)
  obtain ⟨f10, h10⟩ := getElem_of_lt row 10 (by omega)
  obtain ⟨f11, h11⟩ := getElem_of_lt row 11 (by omega)
  refine ⟨_, Load_record_eq row f0 f2 f4 f5 f6 f7 f8 f10 f11 h0 h2 h4 h5 h6 h7 h8 h10 h11,
    ⟨f0, h0, ?_, rfl⟩, h2, h4, ⟨f5, h5, rfl⟩, ⟨f6, h6, rfl⟩, h7, h10, h11⟩
  have ht := Split_take_one f0 ','
  cases hs : Split f0 ',' with
  | nil => rw [hs] at ht; simp at ht
  | cons t ts =>
    rw [hs] at ht
    simp at ht
    simp [ht]

/-- C8 at a row of 12 fields. -/
theorem Load_record_fields_witness :
    12 ≤ sampleRow.length ∧
    ∃ r, Load.record sampleRow = .ok r ∧
      (∃ f0, sampleRow[0]? = some f0 ∧ (Split f0 ',').head? = some r.Name ∧
        r.Name = ⟨f0.data.takeWhile (fun c => decide (c ≠ ','))⟩) ∧
      sampleRow[2]? = some r.Alpha2 ∧
      sampleRow[4]? = some r.Alpha3 ∧
      (∃ f5, sampleRow[5]? = some f5 ∧ r.Currency = Split f5 ',') ∧
      (∃ f6, sampleRow[6]? = some f6 ∧ r.CallingCode = Split f6 ',') ∧
      sampleRow[7]? = some r.Capital ∧
      sampleRow[10]? = some r.Region ∧
      sampleRow[11]? = some r.Subregion :=
  ⟨by decide, Load_record_fields sampleRow (by decide)⟩

/-- C9 fails as stated: the row has `Seoul` in field 7, the record built from it
has `Seoul` as `Capital` and `Korea`, `Republic of Korea`, `ROK` as alternate
names; the token of field 7 is not among them. -/
theorem Load_record_capital_not_alternate :
    sampleRow[7]? = some "Seoul" ∧ "Seoul" ∈ Split "Seoul" ',' ∧
    ∃ r, Load.record sampleRow = .ok r ∧
      r.AlternateNames = ["Korea", "Republic of Korea", "ROK"] ∧
      "Seoul" ∉ r.AlternateNames :=
  ⟨by decide, by decide,
    ⟨"South Korea", ["Korea", "Republic of Korea", "ROK"], "KR", "KOR", "Seoul", ["KRW"], ["82"],
      "Asia", "Eastern Asia"⟩,
    rfl, by decide, by decide⟩

/-- C9 amended: the `AlternateNames` of the record built from a row of at least
12 fields are the tokens of field 0 after the first, followed by the
comma-separated tokens of field 8; with `Name` in front they are all tokens of
field 0 followed by those of field 8. Field 7 is stored as `Capital`. -/
theorem Load_record_alternate_names (row : List String) (h : 12 ≤ row.length) :
    ∃ r f0 f8, Load.record row = .ok r ∧ row[0]? = some f0 ∧ row[8]? = some f8 ∧
      r.AlternateNames = (Split f0 ',').drop 1 ++ Split f8 ',' ∧
      r.Name :: r.AlternateNames = Split f0 ',' ++ Split f8 ',' ∧
      row[7]? = some r.Capital := by
  obtain ⟨f0, h0⟩ := getElem_of_lt row 0 (by omega)
  obtain ⟨f2, h2⟩ := getElem_of_lt row 2 (by omega)
  obtain ⟨f4, h4⟩ := getElem_of_lt row 4 (by omega)
  obtain ⟨f5, h5⟩ := getElem_of_lt row 5 (by omega)
  obtain ⟨f6, h6⟩ := getElem_of_lt row 6 (by omega)
  obtain ⟨f7, h7⟩ := getElem_of_lt row 7 (by omega)
  obtain ⟨f8, h8⟩ := getElem_of_lt row 8 (by omega)
  obtain ⟨f10, h10⟩ := getElem_of_lt row 10 (by omega)
  obtain ⟨f11, h11⟩ := getElem_of_lt row 11 (by omega)
  refine ⟨_, f0, f8, Load_record_eq row f0 f2 f4 f5 f6 f7 f8 f10 f11 h0 h2 h4 h5 h6 h7 h8 h10 h11,
    h0, h8, rfl, ?_, h7⟩
  have ht := Split_take_one f0 ','
  cases hs : Split f0 ',' with
  | nil => rw [hs] at ht; simp at ht
  | cons t ts =>
    rw [hs] at ht
    simp at ht
    simp [ht]

/-- C9 amended, at a row of 12 fields. -/
theorem Load_record_alternate_names_witness :
    12 ≤ sampleRow.length ∧
    ∃ r f0 f8, Load.record sampleRow = .ok r ∧ sampleRow[0]? = some f0 ∧
      sampleRow[8]? = some f8 ∧
      r.AlternateNames = (Split f0 ',').drop 1 ++ Split f8 ',' ∧
      r.Name :: r.AlternateNames = Split f0 ',' ++ Split f8 ',' ∧
      sampleRow[7]? = some r.Capital :=
  ⟨by decide, Load_record_alternate_names sampleRow (by decide)⟩

/-- C10: when the table `Load` parsed (from the bundled dataset when no URL is
given, from the URL otherwise) has `n ≥ 1` rows and every row after the first
has at least 12 fields, `Load` returns a catalog of exactly `n - 1` records,
and the record at index `i` is the one built from row `i + 1`. -/
theorem Load_keeps_rows_in_order (env : Env) (specifiedURL : List String)
    (data : List (List String))
    (hsrc : (specifiedURL = [] ∧ readCSVFromBytes env env.defaultCountryInfo = .ok data) ∨
      (∃ url, specifiedURL = [url] ∧ readCSVFromURL env url = .ok data))
    (hn : 1 ≤ data.length)
    (hrows : ∀ row ∈ data.tail, 12 ≤ row.length) :
    ∃ c : CountryInfoClient, (Load env specifiedURL).1 = .ok c ∧
      c.Data.length = data.length - 1 ∧
      (∀ (i : Nat) (row : List String), data[i + 1]? = some row →
        ∃ r, c.Data[i]? = some r ∧ Load.record row = .ok r) ∧
      data.tail.map Load.record = c.Data.map Except.ok := by
  obtain ⟨header, rows, rfl⟩ : ∃ header rows, data = header :: rows := by
    cases data with
    | nil => simp at hn
    | cons header rows => exact ⟨header, rows, rfl⟩
  obtain ⟨recs, hloop, hmap⟩ := Load_loop_succ 0 rows [] hrows
  have hloop0 : Load.loop 0 (header :: rows) [] = .ok recs := by
    simpa [Load.loop] using hloop
  have hload : (Load env specifiedURL).1 = .ok { Data := recs } := by
    rcases hsrc with ⟨rfl, hread⟩ | ⟨url, rfl, hread⟩
    · simp [Load, hread, hloop0]
    · simp [Load, hread, hloop0]
  have hlen : recs.length = rows.length := by
    have := congrArg List.length hmap
    simpa using this.symm
  refine ⟨{ Data := recs }, hload, by simp [hlen], ?_, hmap⟩
  intro i row hi
  have hi2 : rows[i]? = some row := by simpa using hi
  have hget := congrArg (fun l => l[i]?) hmap
  simp only [List.getElem?_map, hi2, Option.map_some] at hget
  cases hr : recs[i]? with
  | none => simp [hr] at hget
  | some r =>
    rw [hr] at hget
    simp at hget
    exact ⟨r, rfl, hget⟩

/-- C10 at a table of a header and two data rows, read from the bundled
dataset. -/
theorem Load_keeps_rows_in_order_witness :
    ((([] : List String) = [] ∧
        readCSVFromBytes sampleEnv sampleEnv.defaultCountryInfo = .ok sampleTable) ∨
      (∃ url, ([] : List String) = [url] ∧ readCSVFromURL sampleEnv url = .ok sampleTable)) ∧
    1 ≤ sampleTable.length ∧
    (∀ row ∈ sampleTable.tail, 12 ≤ row.length) ∧
    ∃ c : CountryInfoClient, (Load sampleEnv []).1 = .ok c ∧
      c.Data.length = sampleTable.length - 1 ∧
      (∀ (i : Nat) (row : List String), sampleTable[i + 1]? = some row →
        ∃ r, c.Data[i]? = some r ∧ Load.record row = .ok r) ∧
      sampleTable.tail.map Load.record = c.Data.map Except.ok :=
  ⟨Or.inl ⟨rfl, rfl⟩, by decide, by decide,
    Load_keeps_rows_in_order sampleEnv [] sampleTable (Or.inl ⟨rfl, rfl⟩) (by decide)
      (by decide)⟩

/-- C11 fails on the code: for the URL serving the three-column table, whose data
row has fewer than 12 fields, `Load` does not return an error value; it panics
at `row[8]` with an index out of range, after the fetch. -/
theorem Load_short_row_panics :
    Load shortEnv ["https://example.com/short.csv"]
      = (.error (.indexOutOfRange 8 3), [.httpGet "https://example.com/short.csv"]) := by
  rfl

/-- C12: every lookup depends on its query only through the lower-cased form:
queries with equal lower-cased forms give equal results in all seven lookups. -/
theorem lookups_depend_on_lowered_query (tab : Char → Char) (c : CountryInfoClient)
    (q1 q2 : String) (h : ToLower tab q1 = ToLower tab q2) :
    c.MapByName tab q1 = c.MapByName tab q2 ∧
    c.MapByAlpha2 tab q1 = c.MapByAlpha2 tab q2 ∧
    c.MapByAlpha3 tab q1 = c.MapByAlpha3 tab q2 ∧
    c.MapByCurrency tab q1 = c.MapByCurrency tab q2 ∧
    c.MapByCallingCode tab q1 = c.MapByCallingCode tab q2 ∧
    c.MapByRegion tab q1 = c.MapByRegion tab q2 ∧
    c.MapBySubregion tab q1 = c.MapBySubregion tab q2 := by
  refine ⟨?_, ?_, ?_, ?_, ?_, ?_, ?_⟩
  · simp only [CountryInfoClient.MapByName]
    induction c.Data with
    | nil => rfl
    | cons row rest ih => simp only [MapByName.loop, h, ih]
  · simp only [CountryInfoClient.MapByAlpha2]
    induction c.Data with
    | nil => rfl
    | cons row rest ih => simp only [MapByAlpha2.loop, h, ih]
  · simp only [CountryInfoClient.MapByAlpha3]
    induction c.Data with
    | nil => rfl
    | cons row rest ih => simp only [MapByAlpha3.loop, h, ih]
  · simp only [CountryInfoClient.MapByCurrency, h]
  · simp only [CountryInfoClient.MapByCallingCode, h]
  · simp only [CountryInfoClient.MapByRegion, h]
  · simp only [CountryInfoClient.MapBySubregion, h]

/-- C12 at the queries `South Korea` and `south korea`. -/
theorem lookups_depend_on_lowered_query_witness :
    ToLower (fun r => r) "South Korea" = ToLower (fun r => r) "south korea" ∧
    (sampleCatalog.MapByName (fun r => r) "South Korea"
        = sampleCatalog.MapByName (fun r => r) "south korea" ∧
      sampleCatalog.MapByAlpha2 (fun r => r) "South Korea"
        = sampleCatalog.MapByAlpha2 (fun r => r) "south korea" ∧
      sampleCatalog.MapByAlpha3 (fun r => r) "South Korea"
        = sampleCatalog.MapByAlpha3 (fun r => r) "south korea" ∧
      sampleCatalog.MapByCurrency (fun r => r) "South Korea"
        = sampleCatalog.MapByCurrency (fun r => r) "south korea" ∧
      sampleCatalog.MapByCallingCode (fun r => r) "South Korea"
        = sampleCatalog.MapByCallingCode (fun r => r) "south korea" ∧
      sampleCatalog.MapByRegion (fun r => r) "South Korea"
        = sampleCatalog.MapByRegion (fun r => r) "south korea" ∧
      sampleCatalog.MapBySubregion (fun r => r) "South Korea"
        = sampleCatalog.MapBySubregion (fun r => r) "south korea") :=
  ⟨by decide,
    lookups_depend_on_lowered_query (fun r => r) sampleCatalog "South Korea" "south korea"
      (by decide)⟩

/-- C13: every record of a catalog returned by `Load` has at least one element
in `Currency` and at least one in `CallingCode`, whatever the fields 5 and 6 of
its row hold. -/
theorem Load_currency_callingCode_nonempty (env : Env) (specifiedURL : List String)
    (c : CountryInfoClient) (h : (Load env specifiedURL).1 = .ok c)
    (r : CountryInfo) (hr : r ∈ c.Data) :
    1 ≤ r.Currency.length ∧ 1 ≤ r.CallingCode.length := by
  obtain ⟨data, _, hloop⟩ := Load_ok_loop env specifiedURL c h
  rcases Load_loop_mem 0 data [] c.Data hloop r hr with hnil | ⟨row, _, hrec⟩
  · simp at hnil
  · have hlen := Load_record_length row r hrec
    obtain ⟨f0, f2, f4, f5, f6, f7, f8, f10, f11, _, _, hr2⟩ := Load_record_of_length row hlen
    have heq : r = _ := Except.ok.inj (hrec.symm.trans hr2)
    subst heq
    exact ⟨List.length_pos.mpr (Split_ne_nil f5 ','), List.length_pos.mpr (Split_ne_nil f6 ',')⟩

/-- C13 at a table whose data row has empty fields 5 and 6. -/
theorem Load_currency_callingCode_nonempty_witness :
    (Load emptyFieldsEnv []).1
      = .ok ⟨[⟨"Antarctica", [""], "AQ", "ATA", "", [""], [""], "Polar", ""⟩]⟩ ∧
    (⟨"Antarctica", [""], "AQ", "ATA", "", [""], [""], "Polar", ""⟩ : CountryInfo)
      ∈ (⟨[⟨"Antarctica", [""], "AQ", "ATA", "", [""], [""], "Polar", ""⟩]⟩ :
          CountryInfoClient).Data ∧
    (1 ≤ (⟨"Antarctica", [""], "AQ", "ATA", "", [""], [""], "Polar", ""⟩ :
          CountryInfo).Currency.length ∧
      1 ≤ (⟨"Antarctica", [""], "AQ", "ATA", "", [""], [""], "Polar", ""⟩ :
          CountryInfo).CallingCode.length) :=
  ⟨rfl, by decide,
    Load_currency_callingCode_nonempty emptyFieldsEnv []
      ⟨[⟨"Antarctica", [""], "AQ", "ATA", "", [""], [""], "Polar", ""⟩]⟩ rfl
      ⟨"Antarctica", [""], "AQ", "ATA", "", [""], [""], "Polar", ""⟩ (by decide)⟩

/-- C14: no lookup changes the catalog. Run on a memory, each of the three
helpers and of the seven lookups returns the memory it was given (the slice
`Data` and every record), the records its result addresses are the result of
the lookup on the catalog held in that memory, and running the same lookup
again on the memory it returned gives the same result. -/
theorem lookups_leave_memory_unchanged (tab : Char → Char) (mem : Memory) (q : String)
    (p : Nat) :
    AlternateNamesLower.run tab p mem = ((mem.cell p).AlternateNamesLower tab, mem) ∧
    CurrencyLower.run tab p mem = ((mem.cell p).CurrencyLower tab, mem) ∧
    CallingCodeLower.run tab p mem = ((mem.cell p).CallingCodeLower tab, mem) ∧
    ((MapByName.run tab q mem).2 = mem ∧
      (MapByName.run tab q mem).1.map mem.cell = mem.catalog.MapByName tab q ∧
      MapByName.run tab q (MapByName.run tab q mem).2 = MapByName.run tab q mem) ∧
    ((MapByAlpha2.run tab q mem).2 = mem ∧
      (MapByAlpha2.run tab q mem).1.map mem.cell = mem.catalog.MapByAlpha2 tab q ∧
      MapByAlpha2.run tab q (MapByAlpha2.run tab q mem).2 = MapByAlpha2.run tab q mem) ∧
    ((MapByAlpha3.run tab q mem).2 = mem ∧
      (MapByAlpha3.run tab q mem).1.map mem.cell = mem.catalog.MapByAlpha3 tab q ∧
      MapByAlpha3.run tab q (MapByAlpha3.run tab q mem).2 = MapByAlpha3.run tab q mem) ∧
    ((MapByCurrency.run tab q mem).2 = mem ∧
      (MapByCurrency.run tab q mem).1.map mem.cell = mem.catalog.MapByCurrency tab q ∧
      MapByCurrency.run tab q (MapByCurrency.run tab q mem).2
        = MapByCurrency.run tab q mem) ∧
    ((MapByCallingCode.run tab q mem).2 = mem ∧
      (MapByCallingCode.run tab q mem).1.map mem.cell
        = mem.catalog.MapByCallingCode tab q ∧
      MapByCallingCode.run tab q (MapByCallingCode.run tab q mem).2
        = MapByCallingCode.run tab q mem) ∧
    ((MapByRegion.run tab q mem).2 = mem ∧
      (MapByRegion.run tab q mem).1.map mem.cell = mem.catalog.MapByRegion tab q ∧
      MapByRegion.run tab q (MapByRegion.run tab q mem).2 = MapByRegion.run tab q mem) ∧
    ((MapBySubregion.run tab q mem).2 = mem ∧
      (MapBySubregion.run tab q mem).1.map mem.cell = mem.catalog.MapBySubregion tab q ∧
      MapBySubregion.run tab q (MapBySubregion.run tab q mem).2
        = MapBySubregion.run tab q mem) := by
  have hn := MapByName_runLoop_eq tab q mem.Data mem
  have h2 := MapByAlpha2_runLoop_eq tab q mem.Data mem
  have h3 := MapByAlpha3_runLoop_eq tab q mem.Data mem
  have hc := MapByCurrency_run_eq tab q mem
  have hcc := MapByCallingCode_run_eq tab q mem
  have hr := MapByRegion_run_eq tab q mem
  have hs := MapBySubregion_run_eq tab q mem
  refine ⟨AlternateNamesLower_run_eq tab p mem, CurrencyLower_run_eq tab p mem,
    CallingCodeLower_run_eq tab p mem, ⟨hn.1, hn.2, ?_⟩, ⟨h2.1, h2.2, ?_⟩, ⟨h3.1, h3.2, ?_⟩,
    ⟨hc.1, hc.2, ?_⟩, ⟨hcc.1, hcc.2, ?_⟩, ⟨hr.1, hr.2, ?_⟩, ⟨hs.1, hs.2, ?_⟩⟩
  · have h : (MapByName.run tab q mem).2 = mem := hn.1
    rw [h]
  · have h : (MapByAlpha2.run tab q mem).2 = mem := h2.1
    rw [h]
  · have h : (MapByAlpha3.run tab q mem).2 = mem := h3.1
    rw [h]
  · rw [hc.1]
  · rw [hcc.1]
  · rw [hr.1]
  · rw [hs.1]

/-- C15: when the embedded file is as the spec describes the bundled dataset,
`Load` without arguments returns no error and a client whose catalog is not
empty, having read only the embedded file. -/
theorem Load_default_succeeds (env : Env) (h : BundledDataset env = true) :
    ∃ c : CountryInfoClient, Load env [] = (.ok c, [.readDefault]) ∧ c.Data ≠ [] := by
  unfold BundledDataset at h
  cases hread : env.csvReadAll env.defaultCountryInfo with
  | error err => simp [hread] at h
  | ok data =>
    rw [hread] at h
    match data, h with
    | _ :: row :: rows, h =>
      have hrows : ∀ r ∈ row :: rows, 12 ≤ r.length := by
        intro r hr
        have := List.all_eq_true.mp h r hr
        exact of_decide_eq_true this
      obtain ⟨recs, hloop, hmap⟩ := Load_loop_succ 0 (row :: rows) [] hrows
      have hne : recs ≠ [] := by
        intro hnil
        rw [hnil] at hmap
        simp at hmap
      refine ⟨{ Data := recs }, ?_, hne⟩
      have hloop0 : ∀ header : List String,
          Load.loop 0 (header :: row :: rows) [] = .ok recs := by
        intro header
        simpa [Load.loop] using hloop
      simp [Load, readCSVFromBytes, hread, hloop0]

/-- C15 at an environment whose embedded file parses to a header and two data
rows. -/
theorem Load_default_succeeds_witness :
    BundledDataset sampleEnv = true ∧
    ∃ c : CountryInfoClient, Load sampleEnv [] = (.ok c, [.readDefault]) ∧ c.Data ≠ [] :=
  ⟨by decide, Load_default_succeeds sampleEnv (by decide)⟩

/-- C16: the per-call case folding is case-insensitive membership:
`stringInSlice(ToLower(q), r.AlternateNamesLower())` holds exactly when some
element of `r.AlternateNames` has the lower-cased form of `q`, and the same for
`CurrencyLower` and `CallingCodeLower`; the variant that stores the
lower-cased lists at load time returns the same results for every query. -/
theorem precomputed_lists_same_results (tab : Char → Char) :
    (∀ (r : CountryInfo) (q : String),
      stringInSlice (ToLower tab q) (r.AlternateNamesLower tab) = true
        ↔ ∃ a ∈ r.AlternateNames, ToLower tab a = ToLower tab q) ∧
    (∀ (r : CountryInfo) (q : String),
      stringInSlice (ToLower tab q) (r.CurrencyLower tab) = true
        ↔ ∃ a ∈ r.Currency, ToLower tab a = ToLower tab q) ∧
    (∀ (r : CountryInfo) (q : String),
      stringInSlice (ToLower tab q) (r.CallingCodeLower tab) = true
        ↔ ∃ a ∈ r.CallingCode, ToLower tab a = ToLower tab q) ∧
    (∀ (c : CountryInfoClient) (q : String),
      MapByNamePrecomputed tab (c.Data.map (precompute tab)) q = c.MapByName tab q ∧
      MapByCurrencyPrecomputed tab (c.Data.map (precompute tab)) q = c.MapByCurrency tab q ∧
      MapByCallingCodePrecomputed tab (c.Data.map (precompute tab)) q
        = c.MapByCallingCode tab q) := by
  refine ⟨?_, ?_, ?_, ?_⟩
  · intro r q
    rw [AlternateNamesLower_eq]
    exact stringInSlice_lower_iff tab q r.AlternateNames
  · intro r q
    rw [CurrencyLower_eq]
    exact stringInSlice_lower_iff tab q r.Currency
  · intro r q
    rw [CallingCodeLower_eq]
    exact stringInSlice_lower_iff tab q r.CallingCode
  · intro c q
    have hmem : ∀ list : List String,
        ToLower tab q ∈ list.map (ToLower tab) ↔ ContainsIgnoreCase tab q list := by
      intro list
      simp only [List.mem_map, ContainsIgnoreCase, EqIgnoreCase]
    refine ⟨?_, ?_, ?_⟩
    · have hfind : c.MapByName tab q
          = c.Data.find? (fun r => decide (NameMatches tab q r)) :=
        MapByName_loop_eq_find tab q c.Data
      have hpred : ((fun p : PrecomputedInfo =>
            decide (ToLower tab p.info.Name = ToLower tab q) ||
              decide (ToLower tab q ∈ p.alternateNamesLower)) ∘ precompute tab)
          = fun r => decide (NameMatches tab q r) := by
        funext r
        by_cases h1 : ToLower tab r.Name = ToLower tab q
        · have hm : NameMatches tab q r := Or.inl h1
          simp [precompute, h1, hm]
        · by_cases h2 : ContainsIgnoreCase tab q r.AlternateNames
          · have hm : NameMatches tab q r := Or.inr h2
            have h3 := (hmem r.AlternateNames).mpr h2
            simp only [Function.comp_def, precompute, h3, hm]
            simp
          · have hm : ¬ NameMatches tab q r := by
              rintro (h | h)
              · exact h1 h
              · exact h2 h
            have h3 : ¬ ToLower tab q ∈ r.AlternateNames.map (ToLower tab) :=
              fun h => h2 ((hmem r.AlternateNames).mp h)
            simp only [Function.comp_def, precompute, h1, h3, hm]
            simp
      have hinfo : ((fun p : PrecomputedInfo => p.info) ∘ precompute tab) = id := by
        funext r
        rfl
      rw [hfind, MapByNamePrecomputed, List.find?_map, Option.map_map, hpred, hinfo]
      simp
    · rw [MapByCurrency_eq_filter, MapByCurrencyPrecomputed, List.filter_map, List.map_map]
      simp only [precompute, Function.comp_def, hmem]
      simp
    · rw [MapByCallingCode_eq_filter, MapByCallingCodePrecomputed, List.filter_map,
        List.map_map]
      simp only [precompute, Function.comp_def, hmem]
      simp

/-- C17: when the record at index `i` has `q` among its alternate names
(ignoring case), no record before `i` matches `q`, and a later record at index
`j` has `Name` equal to `q` ignoring case, `MapByName` returns the record at
index `i`, and so not a different record at index `j`. -/
theorem MapByName_alternate_before_name (tab : Char → Char) (c : CountryInfoClient)
    (q : String) (i j : Nat) (ri rj : CountryInfo)
    (hi : c.Data[i]? = some ri) (halt : ContainsIgnoreCase tab q ri.AlternateNames)
    (hbefore : ∀ k : Nat, k < i → ∀ r : CountryInfo, c.Data[k]? = some r →
      ¬ NameMatches tab q r)
    (_hij : i < j) (_hj : c.Data[j]? = some rj) (_hname : EqIgnoreCase tab rj.Name q) :
    c.MapByName tab q = some ri ∧ (rj ≠ ri → c.MapByName tab q ≠ some rj) := by
  have hfind : c.MapByName tab q = c.Data.find? (fun r => decide (NameMatches tab q r)) :=
    MapByName_loop_eq_find tab q c.Data
  have hres : c.MapByName tab q = some ri := by
    rw [hfind]
    exact find_of_first (NameMatches tab q) c.Data i ri hi (Or.inr halt) hbefore
  refine ⟨hres, ?_⟩
  intro hne hj2
  rw [hres] at hj2
  exact hne (Option.some.inj hj2).symm

/-- C17 at a catalog whose first record has `Korea` as an alternate name and
whose second record has it as canonical name. -/
theorem MapByName_alternate_before_name_witness :
    outrankCatalog.Data[0]? = some ⟨"South Korea", ["Korea", "ROK"], "KR", "KOR", "Seoul",
      ["KRW"], ["82"], "Asia", "Eastern Asia"⟩ ∧
    ContainsIgnoreCase (fun r => r) "korea" ["Korea", "ROK"] ∧
    (∀ k : Nat, k < 0 → ∀ r : CountryInfo, outrankCatalog.Data[k]? = some r →
      ¬ NameMatches (fun r => r) "korea" r) ∧
    0 < 1 ∧
    outrankCatalog.Data[1]? = some ⟨"Korea", ["DPRK"], "KP", "PRK", "Pyongyang", ["KPW"],
      ["850"], "Asia", "Eastern Asia"⟩ ∧
    EqIgnoreCase (fun r => r) "Korea" "korea" ∧
    (outrankCatalog.MapByName (fun r => r) "korea"
        = some ⟨"South Korea", ["Korea", "ROK"], "KR", "KOR", "Seoul", ["KRW"], ["82"], "Asia",
          "Eastern Asia"⟩ ∧
      ((⟨"Korea", ["DPRK"], "KP", "PRK", "Pyongyang", ["KPW"], ["850"], "Asia",
            "Eastern Asia"⟩ : CountryInfo)
          ≠ ⟨"South Korea", ["Korea", "ROK"], "KR", "KOR", "Seoul", ["KRW"], ["82"], "Asia",
            "Eastern Asia"⟩ →
        outrankCatalog.MapByName (fun r => r) "korea"
          ≠ some ⟨"Korea", ["DPRK"], "KP", "PRK", "Pyongyang", ["KPW"], ["850"], "Asia",
            "Eastern Asia"⟩)) :=
  ⟨by decide, by decide, fun k hk => absurd hk (Nat.not_lt_zero k), by decide, by decide,
    by decide,
    MapByName_alternate_before_name (fun r => r) outrankCatalog "korea" 0 1
      ⟨"South Korea", ["Korea", "ROK"], "KR", "KOR", "Seoul", ["KRW"], ["82"], "Asia",
        "Eastern Asia"⟩
      ⟨"Korea", ["DPRK"], "KP", "PRK", "Pyongyang", ["KPW"], ["850"], "Asia", "Eastern Asia"⟩
      (by decide) (by decide) (fun k hk => absurd hk (Nat.not_lt_zero k)) (by decide)
      (by decide) (by decide)⟩

/-- C18: for a record `r` at index `i` of the catalog, the point lookups by its
own `Name`, by each of its alternate names, by its `Alpha2` and by its `Alpha3`
are never absent, and return `r` when no record before `i` matches the same
key; `r` is an element of the multi-result lookups by its own `Region`,
`Subregion`, and by each of its currencies and calling codes. -/
theorem lookups_find_own_record (tab : Char → Char) (c : CountryInfoClient) (i : Nat)
    (r : CountryInfo) (hr : c.Data[i]? = some r) :
    (c.MapByName tab r.Name ≠ none ∧
      ((∀ k : Nat, k < i → ∀ r2 : CountryInfo, c.Data[k]? = some r2 →
          ¬ NameMatches tab r.Name r2) → c.MapByName tab r.Name = some r)) ∧
    (∀ a ∈ r.AlternateNames, c.MapByName tab a ≠ none ∧
      ((∀ k : Nat, k < i → ∀ r2 : CountryInfo, c.Data[k]? = some r2 →
          ¬ NameMatches tab a r2) → c.MapByName tab a = some r)) ∧
    (c.MapByAlpha2 tab r.Alpha2 ≠ none ∧
      ((∀ k : Nat, k < i → ∀ r2 : CountryInfo, c.Data[k]? = some r2 →
          ¬ EqIgnoreCase tab r2.Alpha2 r.Alpha2) → c.MapByAlpha2 tab r.Alpha2 = some r)) ∧
    (c.MapByAlpha3 tab r.Alpha3 ≠ none ∧
      ((∀ k : Nat, k < i → ∀ r2 : CountryInfo, c.Data[k]? = some r2 →
          ¬ EqIgnoreCase tab r2.Alpha3 r.Alpha3) → c.MapByAlpha3 tab r.Alpha3 = some r)) ∧
    r ∈ c.MapByRegion tab r.Region ∧
    r ∈ c.MapBySubregion tab r.Subregion ∧
    (∀ x ∈ r.Currency, r ∈ c.MapByCurrency tab x) ∧
    (∀ y ∈ r.CallingCode, r ∈ c.MapByCallingCode tab y) := by
  have hmem : r ∈ c.Data := List.getElem?_mem hr
  have hname : ∀ q : String, c.MapByName tab q
      = c.Data.find? (fun r2 => decide (NameMatches tab q r2)) :=
    fun q => MapByName_loop_eq_find tab q c.Data
  have h2 : c.MapByAlpha2 tab r.Alpha2
      = c.Data.find? (fun r2 => decide (EqIgnoreCase tab r2.Alpha2 r.Alpha2)) :=
    MapByAlpha2_loop_eq_find tab r.Alpha2 c.Data
  have h3 : c.MapByAlpha3 tab r.Alpha3
      = c.Data.find? (fun r2 => decide (EqIgnoreCase tab r2.Alpha3 r.Alpha3)) :=
    MapByAlpha3_loop_eq_find tab r.Alpha3 c.Data
  refine ⟨⟨?_, ?_⟩, ?_, ⟨?_, ?_⟩, ⟨?_, ?_⟩, ?_, ?_, ?_, ?_⟩
  · rw [hname]
    exact find_ne_none_of_getElem (NameMatches tab r.Name) c.Data i r hr (Or.inl rfl)
  · intro hbefore
    rw [hname]
    exact find_of_first (NameMatches tab r.Name) c.Data i r hr (Or.inl rfl) hbefore
  · intro a ha
    have hm : NameMatches tab a r := Or.inr ⟨a, ha, rfl⟩
    refine ⟨?_, ?_⟩
    · rw [hname]
      exact find_ne_none_of_getElem (NameMatches tab a) c.Data i r hr hm
    · intro hbefore
      rw [hname]
      exact find_of_first (NameMatches tab a) c.Data i r hr hm hbefore
  · rw [h2]
    exact find_ne_none_of_getElem (fun r2 : CountryInfo => EqIgnoreCase tab r2.Alpha2 r.Alpha2)
      c.Data i r hr rfl
  · intro hbefore
    rw [h2]
    exact find_of_first (fun r2 : CountryInfo => EqIgnoreCase tab r2.Alpha2 r.Alpha2)
      c.Data i r hr rfl hbefore
  · rw [h3]
    exact find_ne_none_of_getElem (fun r2 : CountryInfo => EqIgnoreCase tab r2.Alpha3 r.Alpha3)
      c.Data i r hr rfl
  · intro hbefore
    rw [h3]
    exact find_of_first (fun r2 : CountryInfo => EqIgnoreCase tab r2.Alpha3 r.Alpha3)
      c.Data i r hr rfl hbefore
  · rw [MapByRegion_eq_filter, List.mem_filter]
    exact ⟨hmem, decide_eq_true (rfl : EqIgnoreCase tab r.Region r.Region)⟩
  · rw [MapBySubregion_eq_filter, List.mem_filter]
    exact ⟨hmem, decide_eq_true (rfl : EqIgnoreCase tab r.Subregion r.Subregion)⟩
  · intro x hx
    rw [MapByCurrency_eq_filter, List.mem_filter]
    exact ⟨hmem, decide_eq_true (⟨x, hx, rfl⟩ : ContainsIgnoreCase tab x r.Currency)⟩
  · intro y hy
    rw [MapByCallingCode_eq_filter, List.mem_filter]
    exact ⟨hmem, decide_eq_true (⟨y, hy, rfl⟩ : ContainsIgnoreCase tab y r.CallingCode)⟩

/-- C18 at the second record of the two-record catalog. -/
theorem lookups_find_own_record_witness :
    sampleCatalog.Data[1]? = some northKorea ∧
    ((sampleCatalog.MapByName (fun r => r) northKorea.Name ≠ none ∧
      ((∀ k : Nat, k < 1 → ∀ r2 : CountryInfo, sampleCatalog.Data[k]? = some r2 →
          ¬ NameMatches (fun r => r) northKorea.Name r2) →
        sampleCatalog.MapByName (fun r => r) northKorea.Name = some northKorea)) ∧
    (∀ a ∈ northKorea.AlternateNames, sampleCatalog.MapByName (fun r => r) a ≠ none ∧
      ((∀ k : Nat, k < 1 → ∀ r2 : CountryInfo, sampleCatalog.Data[k]? = some r2 →
          ¬ NameMatches (fun r => r) a r2) →
        sampleCatalog.MapByName (fun r => r) a = some northKorea)) ∧
    (sampleCatalog.MapByAlpha2 (fun r => r) northKorea.Alpha2 ≠ none ∧
      ((∀ k : Nat, k < 1 → ∀ r2 : CountryInfo, sampleCatalog.Data[k]? = some r2 →
          ¬ EqIgnoreCase (fun r => r) r2.Alpha2 northKorea.Alpha2) →
        sampleCatalog.MapByAlpha2 (fun r => r) northKorea.Alpha2 = some northKorea)) ∧
    (sampleCatalog.MapByAlpha3 (fun r => r) northKorea.Alpha3 ≠ none ∧
      ((∀ k : Nat, k < 1 → ∀ r2 : CountryInfo, sampleCatalog.Data[k]? = some r2 →
          ¬ EqIgnoreCase (fun r => r) r2.Alpha3 northKorea.Alpha3) →
        sampleCatalog.MapByAlpha3 (fun r => r) northKorea.Alpha3 = some northKorea)) ∧
    northKorea ∈ sampleCatalog.MapByRegion (fun r => r) northKorea.Region ∧
    northKorea ∈ sampleCatalog.MapBySubregion (fun r => r) northKorea.Subregion ∧
    (∀ x ∈ northKorea.Currency, northKorea ∈ sampleCatalog.MapByCurrency (fun r => r) x) ∧
    (∀ y ∈ northKorea.CallingCode,
      northKorea ∈ sampleCatalog.MapByCallingCode (fun r => r) y)) :=
  ⟨by decide, lookups_find_own_record (fun r => r) sampleCatalog 1 northKorea (by decide)⟩

/-- C19: when a data row of the table `Load` read has the empty string in field
8, the record built from it has the empty string among its `AlternateNames`,
and on the catalog `Load` returned `MapByName("")` returns a record of the
catalog, not the absent value. -/
theorem Load_empty_field8_matches_empty_name (tab : Char → Char) (env : Env)
    (specifiedURL : List String) (data : List (List String)) (c : CountryInfoClient)
    (row : List String)
    (hsrc : (specifiedURL = [] ∧ readCSVFromBytes env env.defaultCountryInfo = .ok data) ∨
      (∃ url, specifiedURL = [url] ∧ readCSVFromURL env url = .ok data))
    (hload : (Load env specifiedURL).1 = .ok c)
    (hrow : row ∈ data.tail) (h8 : row[8]? = some "") :
    (∃ r ∈ c.Data, Load.record row = .ok r ∧ "" ∈ r.AlternateNames) ∧
    c.MapByName tab "" ≠ none ∧
    ∃ r ∈ c.Data, c.MapByName tab "" = some r := by
  have hloop := Load_ok_loop_of_source env specifiedURL data c hsrc hload
  cases data with
  | nil => simp at hrow
  | cons header rows =>
    have hloop1 : Load.loop (0 + 1) rows [] = .ok c.Data := by
      simpa [Load.loop] using hloop
    obtain ⟨r, hr, hrec⟩ := Load_loop_all 0 rows c.Data hloop1 row hrow
    have hempty : "" ∈ r.AlternateNames := Load_record_empty_field8 row r hrec h8
    have hfind : c.MapByName tab ""
        = c.Data.find? (fun r2 => decide (NameMatches tab "" r2)) :=
      MapByName_loop_eq_find tab "" c.Data
    have hmatch : NameMatches tab "" r := Or.inr ⟨"", hempty, rfl⟩
    have hne : c.MapByName tab "" ≠ none := by
      rw [hfind]
      intro hnone
      exact (find_decide_eq_none (NameMatches tab "") c.Data).mp hnone r hr hmatch
    refine ⟨⟨r, hr, hrec, hempty⟩, hne, ?_⟩
    cases hres : c.MapByName tab "" with
    | none => exact absurd hres hne
    | some r2 =>
      refine ⟨r2, ?_, rfl⟩
      rw [hfind] at hres
      exact List.mem_of_find?_eq_some hres

/-- C19 at a table whose data row has an empty field 8, read from the bundled
dataset. -/
theorem Load_empty_field8_matches_empty_name_witness :
    ((([] : List String) = [] ∧
        readCSVFromBytes emptyFieldsEnv emptyFieldsEnv.defaultCountryInfo
          = .ok emptyFieldsTable) ∨
      (∃ url, ([] : List String) = [url] ∧
        readCSVFromURL emptyFieldsEnv url = .ok emptyFieldsTable)) ∧
    (Load emptyFieldsEnv []).1
      = .ok ⟨[⟨"Antarctica", [""], "AQ", "ATA", "", [""], [""], "Polar", ""⟩]⟩ ∧
    ["Antarctica", "010", "AQ", "ATA-010", "ATA", "", "", "", "", "", "Polar", ""]
      ∈ emptyFieldsTable.tail ∧
    ["Antarctica", "010", "AQ", "ATA-010", "ATA", "", "", "", "", "", "Polar", ""][8]?
      = some "" ∧
    ((∃ r ∈ (⟨[⟨"Antarctica", [""], "AQ", "ATA", "", [""], [""], "Polar", ""⟩]⟩ :
          CountryInfoClient).Data,
        Load.record
            ["Antarctica", "010", "AQ", "ATA-010", "ATA", "", "", "", "", "", "Polar", ""]
          = .ok r ∧ "" ∈ r.AlternateNames) ∧
      (⟨[⟨"Antarctica", [""], "AQ", "ATA", "", [""], [""], "Polar", ""⟩]⟩ :
          CountryInfoClient).MapByName (fun r => r) "" ≠ none ∧
      ∃ r ∈ (⟨[⟨"Antarctica", [""], "AQ", "ATA", "", [""], [""], "Polar", ""⟩]⟩ :
          CountryInfoClient).Data,
        (⟨[⟨"Antarctica", [""], "AQ", "ATA", "", [""], [""], "Polar", ""⟩]⟩ :
          CountryInfoClient).MapByName (fun r => r) "" = some r) :=
  ⟨Or.inl ⟨rfl, rfl⟩, rfl, by decide, by decide,
    Load_empty_field8_matches_empty_name (fun r => r) emptyFieldsEnv [] emptyFieldsTable
      ⟨[⟨"Antarctica", [""], "AQ", "ATA", "", [""], [""], "Polar", ""⟩]⟩
      ["Antarctica", "010", "AQ", "ATA-010", "ATA", "", "", "", "", "", "Polar", ""]
      (Or.inl ⟨rfl, rfl⟩) rfl (by decide) (by decide)⟩

/-- C20: when the table `Load` read has no row or only the header row, `Load`
returns no error and a client whose catalog is empty; on that client every
single-result lookup returns nil and every multi-result lookup the empty
sequence, for every query. -/
theorem Load_empty_table (env : Env) (specifiedURL : List String) (data : List (List String))
    (hsrc : (specifiedURL = [] ∧ readCSVFromBytes env env.defaultCountryInfo = .ok data) ∨
      (∃ url, specifiedURL = [url] ∧ readCSVFromURL env url = .ok data))
    (hlen : data.length ≤ 1) :
    (Load env specifiedURL).1 = .ok { Data := [] } ∧
    ∀ (tab : Char → Char) (q : String),
      ({ Data := [] } : CountryInfoClient).MapByName tab q = none ∧
      ({ Data := [] } : CountryInfoClient).MapByAlpha2 tab q = none ∧
      ({ Data := [] } : CountryInfoClient).MapByAlpha3 tab q = none ∧
      ({ Data := [] } : CountryInfoClient).MapByCurrency tab q = [] ∧
      ({ Data := [] } : CountryInfoClient).MapByCallingCode tab q = [] ∧
      ({ Data := [] } : CountryInfoClient).MapByRegion tab q = [] ∧
      ({ Data := [] } : CountryInfoClient).MapBySubregion tab q = [] := by
  have hloop : Load.loop 0 data [] = .ok [] := by
    match data, hlen with
    | [], _ => rfl
    | [_], _ => rfl
  refine ⟨?_, fun tab q => ⟨rfl, rfl, rfl, rfl, rfl, rfl, rfl⟩⟩
  rcases hsrc with ⟨rfl, hread⟩ | ⟨url, rfl, hread⟩
  · simp [Load, hread, hloop]
  · simp [Load, hread, hloop]

/-- C20 at an environment whose reader yields no row, for the bundled dataset. -/
theorem Load_empty_table_witness :
    ((([] : List String) = [] ∧
        readCSVFromBytes offlineEnv offlineEnv.defaultCountryInfo = .ok []) ∨
      (∃ url, ([] : List String) = [url] ∧ readCSVFromURL offlineEnv url = .ok [])) ∧
    ([] : List (List String)).length ≤ 1 ∧
    ((Load offlineEnv []).1 = .ok { Data := [] } ∧
      ∀ (tab : Char → Char) (q : String),
        ({ Data := [] } : CountryInfoClient).MapByName tab q = none ∧
        ({ Data := [] } : CountryInfoClient).MapByAlpha2 tab q = none ∧
        ({ Data := [] } : CountryInfoClient).MapByAlpha3 tab q = none ∧
        ({ Data := [] } : CountryInfoClient).MapByCurrency tab q = [] ∧
        ({ Data := [] } : CountryInfoClient).MapByCallingCode tab q = [] ∧
        ({ Data := [] } : CountryInfoClient).MapByRegion tab q = [] ∧
        ({ Data := [] } : CountryInfoClient).MapBySubregion tab q = []) :=
  ⟨Or.inl ⟨rfl, rfl⟩, by decide,
    Load_empty_table offlineEnv [] [] (Or.inl ⟨rfl, rfl⟩) (by decide)⟩

end CountryMapper
